import Mathlib

set_option maxRecDepth 100000
set_option maxHeartbeats 1000000

/-!
Verification development for the recipe-generation backend.

The Python source is shallowly embedded: pure string-processing helpers
become Lean functions on `List Char`, the external generative model is an
opaque oracle `Nat → UpstreamResult`, the relational stores become lists of
rows, and fallible code returns `Except`.  Regular-expression passes of the
input sanitizer are embedded as explicit scanners that mirror the semantics
of the concrete patterns used by the source (left-to-right, non-overlapping,
case-insensitive replacement with the empty string).
-/

namespace Spec2Proof

/-! Whitespace in the sense of the Python `str.split` / `\s` class
(restricted to its ASCII members, which is the fragment the source relies on). -/

def pyWs (c : Char) : Bool :=
  c == ' ' || c == '\t' || c == '\n' || c == '\r' || c == '\x0b' || c == '\x0c'

def nonWs (c : Char) : Bool := !(pyWs c)

/-- Python `str.split()` with no separator: split on whitespace runs and drop
empty tokens.  Fuelled structural recursion; fuel equal to the list length
is always sufficient. -/
def pySplitF : Nat → List Char → List (List Char)
  | 0, _ => []
  | _ + 1, [] => []
  | f + 1, c :: l =>
    if pyWs c then pySplitF f l
    else (c :: l.takeWhile nonWs) :: pySplitF f (l.dropWhile nonWs)

def pySplit (l : List Char) : List (List Char) := pySplitF l.length l

/-- Python `" ".join(tokens)`. -/
def joinSp : List (List Char) → List Char
  | [] => []
  | [t] => t
  | t :: t2 :: rest => t ++ ' ' :: joinSp (t2 :: rest)

/-- Python `str.strip()`: drop leading and trailing whitespace. -/
def pyStrip (l : List Char) : List Char :=
  ((l.dropWhile pyWs).reverse.dropWhile pyWs).reverse

/-! Case-insensitive pattern matching for the concrete regular expressions of
the sanitizer.  A pattern is a sequence of alternative groups; consecutive
groups are implicitly separated by `\s+`.  All alternatives used by the
source start with a non-whitespace character and are pairwise prefix-free at
any given position, so a deterministic matcher (maximal whitespace run,
first alternative that fits) agrees with the backtracking regex engine. -/

/-- Match a literal lowercase word at the head of the text,
case-insensitively; return the rest of the text. -/
def matchLit : List Char → List Char → Option (List Char)
  | [], t => some t
  | _ :: _, [] => none
  | w :: ws, c :: cs => if c.toLower == w then matchLit ws cs else none

/-- First alternative, in order, that matches (regex alternation order). -/
def matchAlts : List (List Char) → List Char → Option (List Char)
  | [], _ => none
  | a :: rest, t =>
    match matchLit a t with
    | some r => some r
    | none => matchAlts rest t

/-- Consume one or more whitespace characters, maximally (`\s+` in front of a
continuation that starts with a non-whitespace character). -/
def eatWs : List Char → Option (List Char)
  | [] => none
  | c :: r => if pyWs c then some (r.dropWhile pyWs) else none

abbrev Pat := List (List (List Char))

/-- Match a whole pattern at the head of the text; return the rest. -/
def matchSeq : Pat → List Char → Option (List Char)
  | [], t => some t
  | [e], t => matchAlts e t
  | e :: e2 :: rest, t =>
    match matchAlts e t with
    | none => none
    | some t1 =>
      match eatWs t1 with
      | none => none
      | some t2 => matchSeq (e2 :: rest) t2

/-- Python `re.sub(pattern, both-empty-replacement)`: scan left to right,
delete every non-overlapping match, resume after each match. -/
def subAllF (pat : Pat) : Nat → List Char → List Char
  | 0, l => l
  | _ + 1, [] => []
  | f + 1, c :: rest =>
    match matchSeq pat (c :: rest) with
    | some t => subAllF pat f t
    | none => c :: subAllF pat f rest

def subAll (pat : Pat) (l : List Char) : List Char := subAllF pat l.length l

/-- Skip past the first closing angle bracket, if any. -/
def dropThroughGt : List Char → Option (List Char)
  | [] => none
  | c :: r => if c == '>' then some r else dropThroughGt r

/-- Python `re.sub` of the HTML-tag regex: an opening angle bracket, one or
more characters other than a closing angle bracket, then a closing angle
bracket. -/
def htmlSubF : Nat → List Char → List Char
  | 0, l => l
  | _ + 1, [] => []
  | f + 1, c :: r =>
    if c == '<' then
      match r with
      | [] => [c]
      | x :: xs =>
        if x == '>' then c :: htmlSubF f r
        else
          match dropThroughGt (x :: xs) with
          | some rest => htmlSubF f rest
          | none => c :: htmlSubF f r
    else c :: htmlSubF f r

def htmlSub (l : List Char) : List Char := htmlSubF l.length l

/-- The literal `javascript:` pattern (deleted case-insensitively). -/
def jsPat : Pat := [["javascript:".toList]]

/-! The six prompt-injection patterns, transcribed from the source. -/

def pIgnore : Pat :=
  [["ignore".toList],
   ["previous".toList, "above".toList, "all".toList],
   ["instructions".toList, "instruction".toList]]

def pDisregard : Pat :=
  [["disregard".toList],
   ["previous".toList, "above".toList, "all".toList]]

def pForget : Pat :=
  [["forget".toList],
   ["everything".toList, "all".toList, "previous".toList]]

def pYouAreNow : Pat :=
  [["you".toList], ["are".toList], ["now".toList]]

def pSystemPrompt : Pat :=
  [["system".toList], ["prompt".toList]]

def pReveal : Pat :=
  [["reveal".toList], ["your".toList, "the".toList], ["prompt".toList]]

/-- Injection pattern list of `app/utils/validators.py`. -/
def validatorsPatterns : List Pat :=
  [pIgnore, pDisregard, pForget, pYouAreNow, pSystemPrompt, pReveal]

/-- Injection pattern list of `app/services/ai_service.py` (textually the
same list). -/
def aiPatterns : List Pat :=
  [pIgnore, pDisregard, pForget, pYouAreNow, pSystemPrompt, pReveal]

/-- The shared body of the two sanitizers: strip HTML-tag spans, strip
`javascript:`, strip the injection patterns in order, collapse whitespace,
truncate, trim. -/
def removePasses (pats : List Pat) (l : List Char) : List Char :=
  pats.foldl (fun acc p => subAll p acc) (subAll jsPat (htmlSub l))

def sanitizeList (pats : List Pat) (maxLength : Nat) (l : List Char) : List Char :=
  pyStrip ((joinSp (pySplit (removePasses pats l))).take maxLength)

/-- `sanitize_input` of `app/utils/validators.py` (`max_length` defaults to
1000 at call sites). -/
def sanitize_input (userInput : String) (maxLength : Nat) : String :=
  (sanitizeList validatorsPatterns maxLength userInput.toList).asString

namespace AIService

/-- `AIService._sanitize_input` of `app/services/ai_service.py`
(hard-coded length limit of 1000). -/
def _sanitize_input (userInput : String) : String :=
  (sanitizeList aiPatterns 1000 userInput.toList).asString

end AIService

/-- Nonempty token made of non-whitespace characters. -/
def tokOk (t : List Char) : Bool := !(t.isEmpty) && t.all nonWs

/-! Canonical whitespace shape: no leading or trailing whitespace, no two
adjacent whitespace characters, every whitespace character a plain space. -/

def noLeadWs : List Char → Bool
  | [] => true
  | c :: _ => nonWs c

def noTrailWs (l : List Char) : Bool := noLeadWs l.reverse

def noAdjWs : List Char → Bool
  | [] => true
  | [_] => true
  | a :: b :: r => (nonWs a || nonWs b) && noAdjWs (b :: r)

def spaceOnlyWs (l : List Char) : Bool := l.all (fun c => nonWs c || c == ' ')

def canonWs (l : List Char) : Bool :=
  noLeadWs l && noTrailWs l && noAdjWs l && spaceOnlyWs l

def semiCanonWs (l : List Char) : Bool := noLeadWs l && noAdjWs l && spaceOnlyWs l

/-! Occurrence of a pattern match anywhere in a string, and the relation
between the replacement pass and match presence. -/

def hasMatch (pat : Pat) : List Char → Bool
  | [] => false
  | c :: r => (matchSeq pat (c :: r)).isSome || hasMatch pat r

/-! The AI-service chat components: topic classifier and the generation
client with transport-level retry. -/

/-- Python substring containment (the `in` operator on strings). -/
def containsSubstr : List Char → List Char → Bool
  | [], needle => needle.isEmpty
  | c :: rest, needle => needle.isPrefixOf (c :: rest) || containsSubstr rest needle

namespace AIService

/-- The fixed keyword list of `AIService._is_cooking_related`, transcribed in
source order, duplicates included. -/
def cooking_keywords : List String :=
  ["recipe", "cook", "cooking", "bake", "baking", "fry", "deep fry",
   "shallow fry", "pan fry", "grill", "bbq", "barbecue", "roast", "boil",
   "steam", "saute", "sauté", "stir fry", "blanch", "braise", "simmer",
   "poach", "slow cook", "pressure cook", "air fry", "smoke", "ferment",
   "marinate", "season", "whisk", "knead", "mix", "blend", "chop", "slice",
   "dice", "mince", "julienne", "caramelize", "reduce", "preheat",
   "ingredient", "dish", "meal", "food", "cuisine", "flavor", "taste",
   "savory", "sweet", "spicy", "sour", "bitter", "umami", "nutrition",
   "calories", "protein", "carbs", "fat", "kitchen", "chef", "culinary",
   "garnish", "plating", "breakfast", "lunch", "dinner", "brunch", "snack",
   "starter", "main course", "side dish", "appetizer", "entree", "dessert",
   "beverage", "drink", "iftar", "sehri", "supper", "meat", "chicken", "beef",
   "mutton", "lamb", "goat", "pork", "fish", "seafood", "prawn", "shrimp",
   "crab", "lobster", "salmon", "tuna", "tilapia", "turkey", "duck", "egg",
   "tofu", "soy", "soya", "paneer", "cottage cheese", "bacon", "sausage",
   "ham", "keema", "minced meat", "rice", "basmati", "brown rice", "pasta",
   "spaghetti", "macaroni", "penne", "noodle", "ramen", "udon", "bread",
   "bun", "bagel", "flour", "wheat", "oats", "quinoa", "barley", "corn",
   "maize", "roti", "naan", "chapati", "paratha", "tortilla", "wrap", "pita",
   "vegetable", "tomato", "onion", "garlic", "ginger", "potato",
   "sweet potato", "carrot", "spinach", "broccoli", "cauliflower", "capsicum",
   "bell pepper", "cabbage", "lettuce", "cucumber", "zucchini", "eggplant",
   "brinjal", "okra", "peas", "corn", "mushroom", "beetroot", "pumpkin",
   "fruit", "apple", "banana", "mango", "orange", "strawberry", "blueberry",
   "raspberry", "pineapple", "grape", "lemon", "lime", "watermelon", "peach",
   "pear", "pomegranate", "kiwi", "avocado", "lentil", "dal", "dall", "bean",
   "black bean", "kidney bean", "rajma", "chickpea", "chole", "peas",
   "legume", "moong", "masoor", "toor", "milk", "butter", "cream", "cheese",
   "mozzarella", "cheddar", "parmesan", "ricotta", "yogurt", "curd", "ghee",
   "cream cheese", "condensed milk", "turmeric", "cumin", "coriander",
   "chili", "paprika", "garam masala", "oregano", "thyme", "basil", "parsley",
   "rosemary", "cardamom", "clove", "cinnamon", "mustard seed", "fenugreek",
   "bay leaf", "star anise", "black pepper", "white pepper",
   "red chili powder", "ketchup", "mustard", "mayonnaise", "soy sauce",
   "vinegar", "olive oil", "sesame oil", "hot sauce", "bbq sauce", "chutney",
   "pickle", "relish", "honey", "maple syrup", "biryani", "pulao", "curry",
   "tikka", "masala", "tandoori", "korma", "vindaloo", "samosa", "pakora",
   "dosa", "idli", "vada", "chaat", "chaap", "rajma", "chole", "haleem",
   "nihari", "karahi", "sushi", "ramen", "dumpling", "fried rice",
   "spring roll", "kimchi", "pad thai", "pizza", "burger", "sandwich", "taco",
   "burrito", "lasagna", "pasta", "steak", "stew", "soup", "risotto",
   "paella", "cake", "cupcake", "brownie", "cookie", "biscuit", "pastry",
   "pie", "pudding", "custard", "ice cream", "chocolate", "frosting", "icing",
   "batter", "dough", "muffin", "waffle", "pancake", "donut", "vegetarian",
   "vegan", "keto", "low carb", "high protein", "gluten free", "dairy free",
   "halal", "organic", "healthy", "weight loss", "oven", "stove", "pan",
   "pot", "pressure cooker", "air fryer", "blender", "mixer", "whisk",
   "knife", "spoon", "fork", "spatula", "grater", "microwave", "toaster",
   "tea", "coffee", "juice", "smoothie", "shake", "mocktail", "milkshake",
   "lassi", "how to make", "how to cook", "step by step recipe",
   "easy recipe", "quick recipe", "cooking time", "serving size",
   "ingredients list"]

/-- `AIService._is_cooking_related`: lower-case the text and test whether any
keyword occurs as a substring.  Lower-casing is modelled character-wise,
which agrees with the Python `str.lower` on the ASCII texts involved. -/
def _is_cooking_related (text : String) : Bool :=
  cooking_keywords.any
    (fun keyword => containsSubstr (text.toList.map Char.toLower) keyword.toList)

end AIService

/-! The generation client and the chat pipeline.  The external model (an
explicitly out-of-scope collaborator) is abstracted as an oracle mapping the
attempt index to an outcome: either raw text or a raised error message. -/

instance {α β : Type} [DecidableEq α] [DecidableEq β] : DecidableEq (Except α β)
  | .error a, .error b => decidable_of_iff (a = b) (by simp)
  | .error _, .ok _ => isFalse (by simp)
  | .ok _, .error _ => isFalse (by simp)
  | .ok a, .ok b => decidable_of_iff (a = b) (by simp)

inductive UpstreamResult where
  | ok (text : String)
  | err (msg : String)
deriving DecidableEq

/-- Trace of one `_generate_with_gemini` call: the returned text or raised
error message, the seconds slept between attempts, and the number of model
invocations. -/
structure GenTrace where
  result : Except String String
  sleeps : List Nat
  calls : Nat
deriving DecidableEq

/-- Trace of one `chat_response` call: the returned text or raised error
message, and the prompt of each generation-client invocation. -/
structure ChatTrace where
  result : Except String String
  promptsSent : List String
deriving DecidableEq

namespace AIService

def max_retries : Nat := 3

def retry_delay : Nat := 2

def retryableCodes : List String := ["503", "429", "UNAVAILABLE", "RESOURCE_EXHAUSTED"]

/-- The retryable-error test of `_generate_with_gemini`: the error text
contains one of the transient-failure markers. -/
def isRetryable (errorStr : String) : Bool :=
  retryableCodes.any (fun code => containsSubstr errorStr.toList code.toList)

def busyMessage : String :=
  "The AI service is currently experiencing high demand. Please try again in a few moments."

/-- One iteration of the `for attempt in range(self.max_retries)` loop of
`_generate_with_gemini`; `remaining` counts the iterations left, so the
recursion is structural. -/
def geminiGo (up : Nat → UpstreamResult) : Nat → Nat → GenTrace
  | 0, _ => ⟨.error "Failed to generate response after multiple retries", [], 0⟩
  | remaining + 1, attempt =>
    match up attempt with
    | .ok t => ⟨.ok t, [], 1⟩
    | .err m =>
      if isRetryable m && decide (attempt < max_retries - 1) then
        let rest := geminiGo up remaining (attempt + 1)
        ⟨rest.result, retry_delay * 2 ^ attempt :: rest.sleeps, rest.calls + 1⟩
      else if isRetryable m then
        ⟨.error busyMessage, [], 1⟩
      else
        ⟨.error ("AI generation failed: " ++ m), [], 1⟩

/-- `AIService._generate_with_gemini` over the upstream oracle. -/
def _generate_with_gemini (up : Nat → UpstreamResult) : GenTrace :=
  geminiGo up max_retries 0

def recipePromptPre : String :=
  "You are a professional chef AI assistant. Generate a detailed recipe for: "

def recipePromptPost : String :=
  "\n\nCRITICAL RULES:\n1. Output ONLY valid JSON, no explanations or text outside JSON\n2. Follow the exact schema below\n3. Never include instructions or commentary\n4. Refuse non-cooking topics\n\nJSON Schema:\n\x7b\n  \"title\": \"string (dish name)\",\n  \"description\": \"string (brief description)\",\n  \"prep_time\": \"string (e.g., \x2715 minutes\x27)\",\n  \"cook_time\": \"string (e.g., \x2730 minutes\x27)\",\n  \"ingredients\": [\n    \x7b\"name\": \"string\", \"quantity\": \"string\"\x7d\n  ],\n  \"steps\": [\"string (step-by-step instructions)\"],\n  \"nutrition\": \x7b\n    \"calories\": \"string\",\n    \"protein\": \"string\",\n    \"carbs\": \"string\",\n    \"fat\": \"string\"\n  \x7d,\n  \"tips\": [\"string (cooking tips)\"],\n  \"serving_suggestions\": [\"string\"]\n\x7d\n\nGenerate the recipe now as JSON only:"

def ingredientPromptPre : String :=
  "You are a professional chef AI. Suggest dishes using these ingredients: "

def ingredientPromptPost : String :=
  "\n\nCRITICAL RULES:\n1. Output ONLY valid JSON\n2. Suggest 3-5 dishes\n3. Include one complete recipe for the best match\n\nJSON Schema:\n\x7b\n  \"suggested_dishes\": [\"string (dish names)\"],\n  \"selected_recipe\": \x7b\n    \"title\": \"string\",\n    \"description\": \"string\",\n    \"prep_time\": \"string\",\n    \"cook_time\": \"string\",\n    \"ingredients\": [\x7b\"name\": \"string\", \"quantity\": \"string\"\x7d],\n    \"steps\": [\"string\"],\n    \"nutrition\": \x7b\"calories\": \"string\", \"protein\": \"string\", \"carbs\": \"string\", \"fat\": \"string\"\x7d,\n    \"tips\": [\"string\"],\n    \"serving_suggestions\": [\"string\"]\n  \x7d,\n  \"missing_optional_ingredients\": [\"string\"]\n\x7d\n\nGenerate JSON only:"

def chatPromptPre : String :=
  "You are a cooking assistant. Answer ONLY cooking-related questions.\n\nRules:\n- Stay on topic (recipes, cooking, ingredients, nutrition)\n- Be helpful and concise\n- If asked about non-cooking topics, politely decline\n\n"

def chatPromptMid : String :=
  "\n\nUser: "

def chatPromptPost : String :=
  "\nAssistant:"

/-- `AIService._build_recipe_prompt`. -/
def _build_recipe_prompt (dish_name : String) : String :=
  recipePromptPre ++ dish_name ++ recipePromptPost

/-- `AIService._build_ingredient_prompt`. -/
def _build_ingredient_prompt (ingredients : List String) : String :=
  ingredientPromptPre ++ String.intercalate ", " ingredients ++ ingredientPromptPost

/-- A chat-context entry: the source accepts dictionaries in either the
user-and-assistant shape or the role-and-content shape; entries of any other
shape contribute nothing and are omitted from this model. -/
inductive ContextMsg where
  | userAssistant (user assistant : String)
  | roleContent (role content : String)
deriving DecidableEq

def formatContextMsg : ContextMsg → String
  | .userAssistant u a => "User: " ++ u ++ "\nAssistant: " ++ a
  | .roleContent role content =>
    (if role == "user" then "User" else "Assistant") ++ ": " ++ content

/-- `AIService._build_chat_prompt`: the last three context entries are
normalised into the transcript, then the new message is appended. -/
def _build_chat_prompt (message : String) (context : List ContextMsg) : String :=
  let lastThree := context.drop (context.length - 3)
  let contextStr := String.intercalate "\n" (lastThree.map formatContextMsg)
  chatPromptPre ++ contextStr ++ chatPromptMid ++ message ++ chatPromptPost

def declineMessage : String :=
  "I can only assist with recipes and cooking-related questions."

/-- `AIService.chat_response`: sanitize, topic-gate, build the chat prompt,
make a single generation call and return its raw result. -/
def chat_response (up : Nat → UpstreamResult) (user_message : String)
    (context : List ContextMsg) : ChatTrace :=
  let sanitized_message := _sanitize_input user_message
  if !(_is_cooking_related sanitized_message) then
    ⟨.ok declineMessage, []⟩
  else
    let system_prompt := _build_chat_prompt sanitized_message context
    ⟨(_generate_with_gemini up).result, [system_prompt]⟩

end AIService

/-! JSON values, a fuelled parser for the JSON fragment the pipeline
consumes, the brace-span extraction of `_extract_json`, and structural
validation of the two pydantic response schemas. -/

inductive JVal where
  | jnull
  | jbool (b : Bool)
  | jnum (lex : String)
  | jstr (s : String)
  | jarr (elems : List JVal)
  | jobj (fields : List (String × JVal))

def jsonWs (c : Char) : Bool := c == ' ' || c == '\t' || c == '\n' || c == '\r'

def hexVal (c : Char) : Option Nat :=
  if '0' ≤ c ∧ c ≤ '9' then some (c.toNat - '0'.toNat)
  else if 'a' ≤ c ∧ c ≤ 'f' then some (c.toNat - 'a'.toNat + 10)
  else if 'A' ≤ c ∧ c ≤ 'F' then some (c.toNat - 'A'.toNat + 10)
  else none

/-- Parse a JSON string body after the opening quote, accumulating decoded
characters in reverse.  Escapes are decoded; unescaped control characters
are rejected as `json.loads` does; surrogate escape values are rejected
rather than decoded (a deliberate restriction of the model to scalar
values). -/
def parseStringBody : Nat → List Char → List Char → Option (String × List Char)
  | 0, _, _ => none
  | f + 1, acc, l =>
    match l with
    | [] => none
    | c :: r =>
      if c == '"' then some (acc.reverse.asString, r)
      else if c == '\\' then
        match r with
        | [] => none
        | e :: r2 =>
          if e == '"' then parseStringBody f ('"' :: acc) r2
          else if e == '\\' then parseStringBody f ('\\' :: acc) r2
          else if e == '/' then parseStringBody f ('/' :: acc) r2
          else if e == 'b' then parseStringBody f ('\x08' :: acc) r2
          else if e == 'f' then parseStringBody f ('\x0c' :: acc) r2
          else if e == 'n' then parseStringBody f ('\n' :: acc) r2
          else if e == 'r' then parseStringBody f ('\r' :: acc) r2
          else if e == 't' then parseStringBody f ('\t' :: acc) r2
          else if e == 'u' then
            match r2 with
            | h1 :: h2 :: h3 :: h4 :: r3 =>
              match hexVal h1, hexVal h2, hexVal h3, hexVal h4 with
              | some a, some b, some c2, some d =>
                let code := ((a * 16 + b) * 16 + c2) * 16 + d
                if code < 55296 ∨ 57343 < code then
                  parseStringBody f (Char.ofNat code :: acc) r3
                else none
              | _, _, _, _ => none
            | _ => none
          else none
      else if c.toNat < 32 then none
      else parseStringBody f (c :: acc) r

def isDigit (c : Char) : Bool := '0' ≤ c && c ≤ '9'

/-- Lex a JSON number.  The lexeme is retained but never interpreted: both
response schemas accept only strings wherever a value is read, so a numeric
value can only ever fail validation. -/
def lexNumber (l : List Char) : Option (String × List Char) :=
  let (neg, l1) := match l with
    | '-' :: rest => (['-'], rest)
    | _ => (([] : List Char), l)
  match l1 with
  | [] => none
  | c :: _ =>
    if !(isDigit c) then none
    else if c == '0' ∧ (l1.takeWhile isDigit).length > 1 then none
    else
      let ipart := l1.takeWhile isDigit
      let r1 := l1.dropWhile isDigit
      let (fpart, r2) := match r1 with
        | '.' :: rest =>
          if (rest.takeWhile isDigit).isEmpty then (([] : List Char), r1)
          else ('.' :: rest.takeWhile isDigit, rest.dropWhile isDigit)
        | _ => (([] : List Char), r1)
      let (epart, r3) := match r2 with
        | e :: rest =>
          if e == 'e' || e == 'E' then
            let (sgn, rest2) := match rest with
              | s :: rr => if s == '+' || s == '-' then ([s], rr) else (([] : List Char), rest)
              | [] => (([] : List Char), ([] : List Char))
            if (rest2.takeWhile isDigit).isEmpty then (([] : List Char), r2)
            else (e :: (sgn ++ rest2.takeWhile isDigit), rest2.dropWhile isDigit)
          else (([] : List Char), r2)
        | [] => (([] : List Char), r2)
      some ((neg ++ ipart ++ fpart ++ epart).asString, r3)

/-- Request selector for the single-function JSON parser: a value, the
members of an object, or the elements of an array. -/
inductive PReq where
  | val
  | members (acc : List (String × JVal))
  | elems (acc : List JVal)

/-- Recursive-descent JSON parser, structural on fuel so that it reduces in
the kernel. -/
def parseGo : Nat → PReq → List Char → Option (JVal × List Char)
  | 0, _, _ => none
  | f + 1, .val, l =>
    match l.dropWhile jsonWs with
    | [] => none
    | c :: r =>
      if c == '"' then
        match parseStringBody f [] r with
        | some (s, rest) => some (.jstr s, rest)
        | none => none
      else if c == '\x7b' then
        match r.dropWhile jsonWs with
        | '\x7d' :: r2 => some (.jobj [], r2)
        | _ => parseGo f (.members []) r
      else if c == '[' then
        match r.dropWhile jsonWs with
        | ']' :: r2 => some (.jarr [], r2)
        | _ => parseGo f (.elems []) r
      else if c == 't' then
        if "rue".toList.isPrefixOf r then some (.jbool true, r.drop 3) else none
      else if c == 'f' then
        if "alse".toList.isPrefixOf r then some (.jbool false, r.drop 4) else none
      else if c == 'n' then
        if "ull".toList.isPrefixOf r then some (.jnull, r.drop 3) else none
      else
        match lexNumber (c :: r) with
        | some (s, rest) => some (.jnum s, rest)
        | none => none
  | f + 1, .members acc, l =>
    match l.dropWhile jsonWs with
    | '"' :: r =>
      match parseStringBody f [] r with
      | none => none
      | some (k, r2) =>
        match r2.dropWhile jsonWs with
        | ':' :: r4 =>
          match parseGo f .val r4 with
          | none => none
          | some (v, r5) =>
            match r5.dropWhile jsonWs with
            | ',' :: r7 => parseGo f (.members ((k, v) :: acc)) r7
            | '\x7d' :: r7 => some (.jobj ((k, v) :: acc).reverse, r7)
            | _ => none
        | _ => none
    | _ => none
  | f + 1, .elems acc, l =>
    match parseGo f .val l with
    | none => none
    | some (v, r) =>
      match r.dropWhile jsonWs with
      | ',' :: r2 => parseGo f (.elems (v :: acc)) r2
      | ']' :: r2 => some (.jarr (v :: acc).reverse, r2)
      | _ => none

/-- `json.loads`: parse one value and require only whitespace to remain. -/
def parseJson (s : String) : Option JVal :=
  match parseGo (4 * s.length + 16) .val s.toList with
  | some (v, rest) => if (rest.dropWhile jsonWs).isEmpty then some v else none
  | none => none

/-- Python dictionary lookup on parsed object fields; a duplicated key keeps
its last occurrence, as in `json.loads`. -/
def lookupJ (fields : List (String × JVal)) (k : String) : Option JVal :=
  match fields.reverse.find? (fun p => p.1 == k) with
  | some p => some p.2
  | none => none

/-! The two pydantic response models of `app/schemas/recipe.py`. -/

structure Ingredient where
  name : String
  quantity : String
deriving DecidableEq

structure Nutrition where
  calories : String
  protein : String
  carbs : String
  fat : String
deriving DecidableEq

structure RecipeResponse where
  title : String
  description : String
  prep_time : String
  cook_time : String
  ingredients : List Ingredient
  steps : List String
  nutrition : Nutrition
  tips : List String
  serving_suggestions : List String
deriving DecidableEq

structure IngredientResponse where
  suggested_dishes : List String
  selected_recipe : RecipeResponse
  missing_optional_ingredients : List String
deriving DecidableEq

def asStr : Option JVal → Option String
  | some (.jstr s) => some s
  | _ => none

def asStrList : Option JVal → Option (List String)
  | some (.jarr xs) => xs.mapM (fun x => match x with | JVal.jstr s => some s | _ => none)
  | _ => none

def asIngredient : JVal → Option Ingredient
  | .jobj fs =>
    match asStr (lookupJ fs "name"), asStr (lookupJ fs "quantity") with
    | some n, some q => some ⟨n, q⟩
    | _, _ => none
  | _ => none

def asIngredientList : Option JVal → Option (List Ingredient)
  | some (.jarr xs) => xs.mapM asIngredient
  | _ => none

def asNutrition : Option JVal → Option Nutrition
  | some (.jobj fs) =>
    match asStr (lookupJ fs "calories"), asStr (lookupJ fs "protein"),
      asStr (lookupJ fs "carbs"), asStr (lookupJ fs "fat") with
    | some c, some p, some cb, some f => some ⟨c, p, cb, f⟩
    | _, _, _, _ => none
  | _ => none

/-- Structural validation of `RecipeResponse(**parsed)`: every required
field present with the required shape; extra fields ignored; string fields
accept only JSON strings (pydantic does not coerce numbers or booleans to
strings in this direction). -/
def validateRecipe (v : JVal) : Option RecipeResponse :=
  match v with
  | .jobj fs => do
    let title ← asStr (lookupJ fs "title")
    let description ← asStr (lookupJ fs "description")
    let prep_time ← asStr (lookupJ fs "prep_time")
    let cook_time ← asStr (lookupJ fs "cook_time")
    let ingredients ← asIngredientList (lookupJ fs "ingredients")
    let steps ← asStrList (lookupJ fs "steps")
    let nutrition ← asNutrition (lookupJ fs "nutrition")
    let tips ← asStrList (lookupJ fs "tips")
    let serving_suggestions ← asStrList (lookupJ fs "serving_suggestions")
    some ⟨title, description, prep_time, cook_time, ingredients, steps,
      nutrition, tips, serving_suggestions⟩
  | _ => none

/-- Structural validation of `IngredientResponse(**parsed)`. -/
def validateIngredientResponse (v : JVal) : Option IngredientResponse :=
  match v with
  | .jobj fs => do
    let suggested_dishes ← asStrList (lookupJ fs "suggested_dishes")
    let selected_recipe ← (lookupJ fs "selected_recipe").bind validateRecipe
    let missing ← asStrList (lookupJ fs "missing_optional_ingredients")
    some ⟨suggested_dishes, selected_recipe, missing⟩
  | _ => none

/-- The greedy brace span of the `_extract_json` regex: from the first
opening brace that has a closing brace after it, through the last closing
brace of the text. -/
def extractSpan (l : List Char) : Option (List Char) :=
  match l.dropWhile (fun c => !(c == '\x7b')) with
  | [] => none
  | c :: rest =>
    if rest.contains '\x7d' then
      some (c :: (rest.reverse.dropWhile (fun c2 => !(c2 == '\x7d'))).reverse)
    else none

namespace AIService

/-- `AIService._extract_json`: find the brace span and parse it; failure of
either step raises a decode error. -/
def _extract_json (response : String) : Except String JVal :=
  match extractSpan response.toList with
  | none => .error "No JSON found in response"
  | some span =>
    match parseJson span.asString with
    | some v => .ok v
    | none => .error "Invalid JSON in response"

/-- One outer attempt body of `generate_recipe`: extract then validate, with
failures of either step signalling a retryable malformed response. -/
def extractValidateRecipe (raw : String) : Except String RecipeResponse :=
  match _extract_json raw with
  | .error e => .error e
  | .ok v =>
    match validateRecipe v with
    | some r => .ok r
    | none => .error "recipe validation failed"

/-- One outer attempt body of `generate_from_ingredients`. -/
def extractValidateIngredient (raw : String) : Except String IngredientResponse :=
  match _extract_json raw with
  | .error e => .error e
  | .ok v =>
    match validateIngredientResponse v with
    | some r => .ok r
    | none => .error "suggestion validation failed"

end AIService

/-- Trace of one orchestrator call: the structured result or raised error
message, and the prompt of each generation-client invocation (one entry per
outer attempt actually made). -/
structure OrchTrace (α : Type) where
  result : Except String α
  prompts : List String

namespace AIService

/-- The `for attempt in range(self.max_retries)` loop of `generate_recipe`;
the upstream oracle takes the outer attempt index and the inner transport
attempt index.  A malformed response retries with the same prompt; an
upstream error propagates uncaught. -/
def recipeGo (up : Nat → Nat → UpstreamResult) (system_prompt : String) :
    Nat → Nat → OrchTrace RecipeResponse
  | 0, _ => ⟨.error "Failed to generate recipe", []⟩
  | remaining + 1, attempt =>
    match (_generate_with_gemini (up attempt)).result with
    | .error e => ⟨.error e, [system_prompt]⟩
    | .ok raw =>
      match extractValidateRecipe raw with
      | .ok doc => ⟨.ok doc, [system_prompt]⟩
      | .error _ =>
        if attempt = max_retries - 1 then
          ⟨.error "Failed to generate valid recipe after retries", [system_prompt]⟩
        else
          let t := recipeGo up system_prompt remaining (attempt + 1)
          ⟨t.result, system_prompt :: t.prompts⟩

/-- `AIService.generate_recipe`: sanitize, build the prompt once, then up to
3 outer attempts of generate plus extract-and-validate. -/
def generate_recipe (up : Nat → Nat → UpstreamResult) (dish_name : String) :
    OrchTrace RecipeResponse :=
  recipeGo up (_build_recipe_prompt (_sanitize_input dish_name)) max_retries 0

/-- The outer loop of `generate_from_ingredients`. -/
def ingredientGo (up : Nat → Nat → UpstreamResult) (system_prompt : String) :
    Nat → Nat → OrchTrace IngredientResponse
  | 0, _ => ⟨.error "Failed to generate suggestions", []⟩
  | remaining + 1, attempt =>
    match (_generate_with_gemini (up attempt)).result with
    | .error e => ⟨.error e, [system_prompt]⟩
    | .ok raw =>
      match extractValidateIngredient raw with
      | .ok doc => ⟨.ok doc, [system_prompt]⟩
      | .error _ =>
        if attempt = max_retries - 1 then
          ⟨.error "Failed to generate suggestions", [system_prompt]⟩
        else
          let t := ingredientGo up system_prompt remaining (attempt + 1)
          ⟨t.result, system_prompt :: t.prompts⟩

/-- `AIService.generate_from_ingredients`: sanitize each ingredient, build
the prompt once, then the bounded outer loop. -/
def generate_from_ingredients (up : Nat → Nat → UpstreamResult)
    (ingredients : List String) : OrchTrace IngredientResponse :=
  ingredientGo up (_build_ingredient_prompt (ingredients.map _sanitize_input))
    max_retries 0

end AIService


/-! The recipe store: rows of the `recipes` table, the repository
operations, and the saved-recipes endpoints.  The payload column is opaque
to the store, so it is a type parameter; the identifier sequence and the
creation clock of the database are explicit fields. -/

structure RecipeRow (α : Type) where
  id : Nat
  user_id : Nat
  recipe_json : α
  created_at : Nat
deriving DecidableEq

structure RecipeStore (α : Type) where
  rows : List (RecipeRow α)
  nextId : Nat
  clock : Nat
deriving DecidableEq

inductive ApiResponse (α : Type) where
  | ok (body : α)
  | httpError (status : Nat) (detail : String)
deriving DecidableEq

namespace RecipeRepository

/-- `RecipeRepository.create`: insert a new row carrying the next identifier
and the current creation instant. -/
def create {α : Type} (st : RecipeStore α) (user_id : Nat) (payload : α) :
    RecipeRow α × RecipeStore α :=
  let row : RecipeRow α := ⟨st.nextId, user_id, payload, st.clock⟩
  (row, ⟨st.rows ++ [row], st.nextId + 1, st.clock + 1⟩)

/-- Insert into a list ordered by creation instant, newest first. -/
def insertDesc {α : Type} (r : RecipeRow α) :
    List (RecipeRow α) → List (RecipeRow α)
  | [] => [r]
  | x :: xs =>
    if x.created_at ≤ r.created_at then r :: x :: xs else x :: insertDesc r xs

def sortDesc {α : Type} : List (RecipeRow α) → List (RecipeRow α)
  | [] => []
  | x :: xs => insertDesc x (sortDesc xs)

/-- `RecipeRepository.get_by_user_id`: the rows of one user, ordered by
creation instant descending. -/
def get_by_user_id {α : Type} (st : RecipeStore α) (user_id : Nat) :
    List (RecipeRow α) :=
  sortDesc (st.rows.filter (fun r => r.user_id == user_id))

/-- Remove the first row satisfying the predicate. -/
def removeFirstP {α : Type} (p : RecipeRow α → Bool) :
    List (RecipeRow α) → List (RecipeRow α)
  | [] => []
  | x :: xs => if p x then xs else x :: removeFirstP p xs

/-- `RecipeRepository.delete`: the query filters by record id and owner id
together; only a row matching both is removed. -/
def delete {α : Type} (st : RecipeStore α) (recipe_id user_id : Nat) :
    Bool × RecipeStore α :=
  if st.rows.any (fun r => r.id == recipe_id && r.user_id == user_id) then
    (true, { st with
      rows := removeFirstP (fun r => r.id == recipe_id && r.user_id == user_id) st.rows })
  else
    (false, st)

/-- `RecipeRepository.count_by_user`. -/
def count_by_user {α : Type} (st : RecipeStore α) (user_id : Nat) : Nat :=
  (st.rows.filter (fun r => r.user_id == user_id)).length

end RecipeRepository

/-- The `POST /saved/save-recipe` handler for an authenticated user: create
the row and answer with its id and a fixed message. -/
def save_recipe {α : Type} (st : RecipeStore α) (current_user_id : Nat)
    (recipe_data : α) : RecipeStore α × (Nat × String) :=
  let res := RecipeRepository.create st current_user_id recipe_data
  (res.2, (res.1.id, "Recipe saved successfully"))

/-- The `GET /saved/recipes` handler: each saved row rendered as its payload
annotated with the store id. -/
def get_saved_recipes {α : Type} (st : RecipeStore α) (current_user_id : Nat) :
    List (Nat × α) :=
  (RecipeRepository.get_by_user_id st current_user_id).map
    (fun r => (r.id, r.recipe_json))

/-- The `DELETE /saved/recipes/recipe_id` handler: 404 with a fixed detail
whenever the ownership-scoped delete removed nothing. -/
def delete_recipe {α : Type} (st : RecipeStore α) (recipe_id current_user_id : Nat) :
    RecipeStore α × ApiResponse String :=
  let res := RecipeRepository.delete st recipe_id current_user_id
  if res.1 then (res.2, .ok "Recipe deleted successfully")
  else (res.2, .httpError 404 "Recipe not found")

/-! The user store and the password login flow.  Password hashing and
verification are out-of-scope primitives, abstracted as the oracle
`verify`. -/

structure UserRow where
  id : Nat
  email : String
  name : String
  google_id : Option String
  password_hash : Option String
  avatar : Option String
  created_at : Nat
deriving DecidableEq

namespace UserRepository

/-- `UserRepository.get_by_email`: first row with the given email. -/
def get_by_email (db : List UserRow) (email : String) : Option UserRow :=
  db.find? (fun u => u.email == email)

end UserRepository

/-- The claim set signed into a session token. -/
structure TokenClaims where
  sub : String
  email : String
  user_id : Nat
  exp : Nat
deriving DecidableEq

namespace AuthService

/-- `AuthService._create_access_token` on the default expiry path: claims
are subject = email, email, user id, and expiry after the configured
minutes. -/
def _create_access_token (email : String) (user_id : Nat)
    (now accessTokenExpireMinutes : Nat) : TokenClaims :=
  ⟨email, email, user_id, now + accessTokenExpireMinutes⟩

def invalidCredentialMessage : String := "Invalid email or password"

def wrongAuthMethodMessage : String :=
  "This account uses Google Sign-In. Please login with Google."

/-- `AuthService.login`.  The Python truthiness test on the stored hash
treats a missing hash and an empty hash alike as no password credential. -/
def login (verify : String → String → Bool) (db : List UserRow)
    (email password : String) (now ttlMinutes : Nat) : Except String TokenClaims :=
  match UserRepository.get_by_email db email with
  | none => .error invalidCredentialMessage
  | some user =>
    match user.password_hash with
    | none => .error wrongAuthMethodMessage
    | some h =>
      if h = "" then .error wrongAuthMethodMessage
      else if verify password h then
        .ok (_create_access_token user.email user.id now ttlMinutes)
      else .error invalidCredentialMessage

end AuthService

/-! Lemmas about the whitespace-normalisation passes, used to settle the
idempotence claim about the sanitizer. -/

theorem length_dropWhile_le (p : Char → Bool) (l : List Char) :
    (l.dropWhile p).length ≤ l.length :=
  (List.dropWhile_sublist (l := l) (p := p)).length_le

theorem pySplitF_congr : ∀ f g (l : List Char), l.length ≤ f → l.length ≤ g →
    pySplitF f l = pySplitF g l := by
  intro f
  induction f with
  | zero =>
    intro g l hf _
    have hl : l = [] := List.eq_nil_of_length_eq_zero (Nat.le_zero.mp hf)
    subst hl
    cases g <;> rfl
  | succ f ih =>
    intro g l hf hg
    cases l with
    | nil => cases g <;> rfl
    | cons c r =>
      cases g with
      | zero => simp at hg
      | succ g =>
        simp only [List.length_cons, Nat.add_le_add_iff_right] at hf hg
        show pySplitF (f + 1) (c :: r) = pySplitF (g + 1) (c :: r)
        simp only [pySplitF]
        by_cases hc : pyWs c = true
        · simp only [hc, if_true]
          exact ih g r hf hg
        · have hc' : pyWs c = false := by simpa using hc
          simp only [hc', Bool.false_eq_true, if_false]
          have hd : (r.dropWhile nonWs).length ≤ r.length := length_dropWhile_le _ _
          rw [ih g (r.dropWhile nonWs) (le_trans hd hf) (le_trans hd hg)]

theorem pySplit_nil : pySplit [] = [] := rfl

theorem pySplit_cons_ws {c : Char} (r : List Char) (h : pyWs c = true) :
    pySplit (c :: r) = pySplit r := by
  show pySplitF (r.length + 1) (c :: r) = pySplit r
  simp only [pySplitF, h, if_true]
  rfl

theorem pySplit_cons_tok {c : Char} (r : List Char) (h : pyWs c = false) :
    pySplit (c :: r) = (c :: r.takeWhile nonWs) :: pySplit (r.dropWhile nonWs) := by
  show pySplitF (r.length + 1) (c :: r) = _
  simp only [pySplitF, h, Bool.false_eq_true, if_false]
  rw [pySplitF_congr r.length (r.dropWhile nonWs).length (r.dropWhile nonWs)
        (length_dropWhile_le _ _) (le_refl _)]
  rfl

theorem pySplit_tokens : ∀ n (l : List Char), l.length ≤ n →
    ∀ t ∈ pySplit l, tokOk t = true := by
  intro n
  induction n with
  | zero =>
    intro l hl
    have : l = [] := List.eq_nil_of_length_eq_zero (Nat.le_zero.mp hl)
    subst this
    simp [pySplit_nil]
  | succ n ih =>
    intro l hl t ht
    match l with
    | [] => simp [pySplit_nil] at ht
    | c :: r =>
      simp only [List.length_cons, Nat.add_le_add_iff_right] at hl
      by_cases hc : pyWs c = true
      · rw [pySplit_cons_ws r hc] at ht
        exact ih r hl t ht
      · rw [pySplit_cons_tok r (by simpa using hc)] at ht
        rcases List.mem_cons.mp ht with h1 | h1
        · subst h1
          simp only [tokOk, List.isEmpty_cons, Bool.not_false, Bool.true_and,
            List.all_cons, Bool.and_eq_true]
          constructor
          · simpa [nonWs] using hc
          · rw [List.all_eq_true]
            intro x hx
            exact List.mem_takeWhile_imp hx
        · exact ih (r.dropWhile nonWs)
            (le_trans (length_dropWhile_le _ _) hl) t h1

theorem noAdjWs_of_cons {a : Char} {l : List Char} (h : noAdjWs (a :: l) = true) :
    noAdjWs l = true := by
  cases l with
  | nil => rfl
  | cons b r =>
    simp only [noAdjWs, Bool.and_eq_true] at h
    exact h.2

theorem noAdjWs_append_right {u v : List Char} (h : noAdjWs (u ++ v) = true) :
    noAdjWs v = true := by
  induction u with
  | nil => simpa using h
  | cons a u ih => exact ih (noAdjWs_of_cons h)

theorem noAdjWs_append_left : ∀ {u : List Char} (v : List Char),
    noAdjWs (u ++ v) = true → noAdjWs u = true := by
  intro u
  induction u with
  | nil => intro v _; rfl
  | cons a u ih =>
    intro v h
    cases u with
    | nil => rfl
    | cons b u2 =>
      have h' : noAdjWs (a :: b :: (u2 ++ v)) = true := h
      simp only [noAdjWs, Bool.and_eq_true] at h'
      have hu : noAdjWs (b :: u2) = true := ih v h'.2
      simp only [noAdjWs, Bool.and_eq_true]
      exact ⟨h'.1, hu⟩

theorem allNonWs_noAdj : ∀ {l : List Char}, l.all nonWs = true → noAdjWs l = true := by
  intro l
  induction l with
  | nil => intro _; rfl
  | cons a l ih =>
    intro h
    cases l with
    | nil => rfl
    | cons b r =>
      simp only [List.all_cons, Bool.and_eq_true] at h
      simp only [noAdjWs, Bool.and_eq_true, Bool.or_eq_true]
      refine ⟨Or.inl h.1, ih ?_⟩
      simp only [List.all_cons, Bool.and_eq_true]
      exact h.2

theorem noLeadWs_append {u : List Char} (v : List Char) (hu : u ≠ []) :
    noLeadWs (u ++ v) = noLeadWs u := by
  cases u with
  | nil => exact absurd rfl hu
  | cons c r => rfl

theorem noTrailWs_append (u : List Char) {v : List Char} (hv : v ≠ []) :
    noTrailWs (u ++ v) = noTrailWs v := by
  unfold noTrailWs
  rw [List.reverse_append]
  exact noLeadWs_append _ (by simpa using hv)

theorem orb_left {a b : Bool} (h : a = true) : (a || b) = true := by
  rw [h]
  rfl

theorem orb_elim {a b : Bool} (h : (a || b) = true) : a = true ∨ b = true := by
  cases a
  · right; simpa using h
  · left; rfl

theorem notb_true {b : Bool} (h : (!b) = true) : b = false := by
  cases b
  · rfl
  · simp at h

theorem notb_false {b : Bool} (h : (!b) = false) : b = true := by
  cases b
  · simp at h
  · rfl

theorem dropWhile_head_false {p : Char → Bool} :
    ∀ (l : List Char) {x xs}, l.dropWhile p = x :: xs → p x = false := by
  intro l
  induction l with
  | nil => intro x xs h; simp at h
  | cons a l ih =>
    intro x xs h
    by_cases hp : p a = true
    · rw [List.dropWhile_cons, if_pos hp] at h
      exact ih h
    · have hp' : p a = false := by simpa using hp
      rw [List.dropWhile_cons, if_neg (by simp [hp'])] at h
      injection h with h1 h2
      rw [← h1]
      exact hp'

theorem tokOk_ne_nil {t : List Char} (h : tokOk t = true) : t ≠ [] := by
  intro he
  subst he
  simp [tokOk] at h

theorem tokOk_all {t : List Char} (h : tokOk t = true) : t.all nonWs = true := by
  simp only [tokOk, Bool.and_eq_true] at h
  exact h.2

theorem joinSp_cons_ne {t : List Char} {ts : List (List Char)} (h : ts ≠ []) :
    joinSp (t :: ts) = t ++ ' ' :: joinSp ts := by
  cases ts with
  | nil => exact absurd rfl h
  | cons t2 rest => rfl

theorem joinSp_ne_nil {ts : List (List Char)} (hne : ts ≠ [])
    (hok : ∀ t ∈ ts, tokOk t = true) : joinSp ts ≠ [] := by
  cases ts with
  | nil => exact absurd rfl hne
  | cons t rest =>
    have ht := tokOk_ne_nil (hok t (List.mem_cons_self t rest))
    cases rest with
    | nil => exact ht
    | cons t2 rest2 =>
      rw [joinSp_cons_ne (by simp)]
      simp

theorem joinSp_noLead {ts : List (List Char)}
    (hok : ∀ t ∈ ts, tokOk t = true) : noLeadWs (joinSp ts) = true := by
  cases ts with
  | nil => rfl
  | cons t rest =>
    have ht := hok t (List.mem_cons_self t rest)
    have hall := tokOk_all ht
    cases t with
    | nil => exact absurd rfl (tokOk_ne_nil ht)
    | cons c cs =>
      simp only [List.all_cons, Bool.and_eq_true] at hall
      cases rest with
      | nil => exact hall.1
      | cons t2 rest2 =>
        rw [joinSp_cons_ne (by simp), List.cons_append]
        exact hall.1

theorem joinSp_noTrail : ∀ (ts : List (List Char)),
    (∀ t ∈ ts, tokOk t = true) → noTrailWs (joinSp ts) = true := by
  intro ts
  induction ts with
  | nil => intro _; rfl
  | cons t rest ih =>
    intro hok
    have ht := hok t (List.mem_cons_self t rest)
    cases rest with
    | nil =>
      show noTrailWs t = true
      unfold noTrailWs
      cases hrev : t.reverse with
      | nil => rfl
      | cons c cs =>
        show nonWs c = true
        have hmem : c ∈ t := by
          rw [← List.mem_reverse, hrev]
          exact List.mem_cons_self c cs
        exact List.all_eq_true.mp (tokOk_all ht) c hmem
    | cons t2 rest2 =>
      have hrest : ∀ x ∈ t2 :: rest2, tokOk x = true :=
        fun x hx => hok x (List.mem_cons_of_mem _ hx)
      have hne : joinSp (t2 :: rest2) ≠ [] := joinSp_ne_nil (by simp) hrest
      rw [joinSp_cons_ne (by simp), noTrailWs_append t (by simp),
        show (' ' :: joinSp (t2 :: rest2)) = [' '] ++ joinSp (t2 :: rest2) from rfl,
        noTrailWs_append [' '] hne]
      exact ih hrest

theorem noAdj_append_sep : ∀ (t : List Char) {J : List Char},
    t.all nonWs = true → noAdjWs J = true → noLeadWs J = true → J ≠ [] →
    noAdjWs (t ++ ' ' :: J) = true := by
  intro t
  induction t with
  | nil =>
    intro J _ hJ hL hne
    cases J with
    | nil => exact absurd rfl hne
    | cons c J2 =>
      simp only [List.nil_append, noAdjWs, Bool.and_eq_true, Bool.or_eq_true]
      exact ⟨Or.inr hL, hJ⟩
  | cons a t2 ih =>
    intro J h hJ hL hne
    simp only [List.all_cons, Bool.and_eq_true] at h
    have hrest : noAdjWs (t2 ++ ' ' :: J) = true := ih h.2 hJ hL hne
    rw [List.cons_append]
    cases ht2 : t2 ++ ' ' :: J with
    | nil => simp at ht2
    | cons b r =>
      rw [ht2] at hrest
      simp only [noAdjWs, Bool.and_eq_true, Bool.or_eq_true]
      exact ⟨Or.inl h.1, hrest⟩

theorem joinSp_noAdj : ∀ (ts : List (List Char)),
    (∀ t ∈ ts, tokOk t = true) → noAdjWs (joinSp ts) = true := by
  intro ts
  induction ts with
  | nil => intro _; rfl
  | cons t rest ih =>
    intro hok
    have ht := hok t (List.mem_cons_self t rest)
    cases rest with
    | nil => exact allNonWs_noAdj (tokOk_all ht)
    | cons t2 rest2 =>
      have hrest : ∀ x ∈ t2 :: rest2, tokOk x = true :=
        fun x hx => hok x (List.mem_cons_of_mem _ hx)
      rw [joinSp_cons_ne (by simp)]
      exact noAdj_append_sep t (tokOk_all ht) (ih hrest) (joinSp_noLead hrest)
        (joinSp_ne_nil (by simp) hrest)

theorem joinSp_spaceOnly : ∀ (ts : List (List Char)),
    (∀ t ∈ ts, tokOk t = true) → spaceOnlyWs (joinSp ts) = true := by
  intro ts
  induction ts with
  | nil => intro _; rfl
  | cons t rest ih =>
    intro hok
    have ht := tokOk_all (hok t (List.mem_cons_self t rest))
    have htok : ∀ x ∈ t, (nonWs x || x == ' ') = true := by
      intro x hx
      exact orb_left (List.all_eq_true.mp ht x hx)
    cases rest with
    | nil =>
      show spaceOnlyWs t = true
      simp only [spaceOnlyWs]
      rw [List.all_eq_true]
      exact htok
    | cons t2 rest2 =>
      have hrest : ∀ x ∈ t2 :: rest2, tokOk x = true :=
        fun x hx => hok x (List.mem_cons_of_mem _ hx)
      rw [joinSp_cons_ne (by simp)]
      simp only [spaceOnlyWs]
      rw [List.all_eq_true]
      intro x hx
      rcases List.mem_append.mp hx with hx | hx
      · exact htok x hx
      · rcases List.mem_cons.mp hx with hx | hx
        · subst hx; rfl
        · exact List.all_eq_true.mp (ih hrest) x hx

theorem joinSp_canon {ts : List (List Char)}
    (h : ∀ t ∈ ts, tokOk t = true) : canonWs (joinSp ts) = true := by
  simp only [canonWs, Bool.and_eq_true, and_assoc]
  exact ⟨joinSp_noLead h, joinSp_noTrail ts h, joinSp_noAdj ts h, joinSp_spaceOnly ts h⟩

/-- A string in canonical whitespace shape is a fixed point of
split-then-join (the Python `" ".join(s.split())` normalisation). -/
theorem collapse_canon : ∀ n (l : List Char), l.length ≤ n → canonWs l = true →
    joinSp (pySplit l) = l := by
  intro n
  induction n with
  | zero =>
    intro l hl _
    have : l = [] := List.eq_nil_of_length_eq_zero (Nat.le_zero.mp hl)
    subst this
    rfl
  | succ n ih =>
    intro l hl hc
    cases l with
    | nil => rfl
    | cons c r =>
      simp only [canonWs, Bool.and_eq_true, and_assoc] at hc
      obtain ⟨h1, h2, h3, h4⟩ := hc
      have hcnw : nonWs c = true := h1
      have hcws : pyWs c = false := notb_true hcnw
      rw [pySplit_cons_tok r hcws]
      have hr : r.takeWhile nonWs ++ r.dropWhile nonWs = r :=
        List.takeWhile_append_dropWhile nonWs r
      cases hdc : r.dropWhile nonWs with
      | nil =>
        rw [hdc, List.append_nil] at hr
        rw [pySplit_nil]
        show c :: r.takeWhile nonWs = c :: r
        rw [hr]
      | cons x d2 =>
        have hx : nonWs x = false := dropWhile_head_false r hdc
        have hxws : pyWs x = true := notb_false hx
        rw [hdc] at hr
        have hxsp : x = ' ' := by
          have hmem : x ∈ c :: r := by
            rw [← hr]
            exact List.mem_cons_of_mem c (List.mem_append.mpr
              (Or.inr (List.mem_cons_self x d2)))
          have := List.all_eq_true.mp h4 x hmem
          rcases orb_elim this with h | h
          · rw [hx] at h; exact absurd h (by simp)
          · exact eq_of_beq h
        cases d2 with
        | nil =>
          exfalso
          have hrev : (c :: r).reverse = x :: ((r.takeWhile nonWs).reverse ++ [c]) := by
            conv_lhs => rw [← hr]
            simp
          have h2' := h2
          unfold noTrailWs at h2'
          rw [hrev] at h2'
          have : nonWs x = true := h2'
          rw [hx] at this
          exact absurd this (by simp)
        | cons y d3 =>
          have hsplit2 : c :: r = (c :: r.takeWhile nonWs ++ [x]) ++ (y :: d3) := by
            conv_lhs => rw [← hr]
            simp
          have hy : nonWs y = true := by
            have hadj : noAdjWs (x :: y :: d3) = true := by
              have h3a : noAdjWs ((c :: r.takeWhile nonWs) ++ (x :: y :: d3)) = true := by
                have := hsplit2 ▸ h3
                simpa [List.append_assoc] using this
              exact noAdjWs_append_right h3a
            simp only [noAdjWs, Bool.and_eq_true] at hadj
            rcases orb_elim hadj.1 with h | h
            · rw [hx] at h; exact absurd h (by simp)
            · exact h
          have hcanon : canonWs (y :: d3) = true := by
            simp only [canonWs, Bool.and_eq_true, and_assoc]
            refine ⟨hy, ?_, ?_, ?_⟩
            · have := hsplit2 ▸ h2
              rwa [noTrailWs_append _ (by simp)] at this
            · exact noAdjWs_append_right (hsplit2 ▸ h3)
            · simp only [spaceOnlyWs]
              rw [List.all_eq_true]
              intro z hz
              refine List.all_eq_true.mp h4 z ?_
              rw [hsplit2]
              exact List.mem_append.mpr (Or.inr hz)
          have hlen : (y :: d3).length ≤ n := by
            have := congrArg List.length hsplit2
            simp only [List.length_cons, List.length_append] at this hl
            simp only [List.length_cons]
            omega
          have hrec := ih (y :: d3) hlen hcanon
          have hyws : pyWs y = false := notb_true hy
          have hne : pySplit (y :: d3) ≠ [] := by
            rw [pySplit_cons_tok d3 hyws]
            simp
          rw [pySplit_cons_ws (y :: d3) hxws, joinSp_cons_ne hne, hrec]
          conv_rhs => rw [← hr]
          rw [hxsp]
          simp

theorem dropWhile_noLead {l : List Char} (h : noLeadWs l = true) :
    l.dropWhile pyWs = l := by
  cases l with
  | nil => rfl
  | cons c r =>
    have hc : nonWs c = true := h
    have hp : pyWs c = false := notb_true hc
    rw [List.dropWhile_cons, if_neg (by simp [hp])]

theorem canon_strip_id {s : List Char} (h : canonWs s = true) : pyStrip s = s := by
  simp only [canonWs, Bool.and_eq_true, and_assoc] at h
  obtain ⟨h1, h2, -, -⟩ := h
  unfold pyStrip
  rw [dropWhile_noLead h1, dropWhile_noLead h2, List.reverse_reverse]

theorem pyStrip_len_le (l : List Char) : (pyStrip l).length ≤ l.length := by
  unfold pyStrip
  rw [List.length_reverse]
  refine le_trans (length_dropWhile_le _ _) ?_
  rw [List.length_reverse]
  exact length_dropWhile_le _ _

theorem take_semiCanon {l : List Char} (n : Nat) (h : canonWs l = true) :
    semiCanonWs (l.take n) = true := by
  simp only [canonWs, Bool.and_eq_true, and_assoc] at h
  obtain ⟨h1, -, h3, h4⟩ := h
  simp only [semiCanonWs, Bool.and_eq_true, and_assoc]
  refine ⟨?_, ?_, ?_⟩
  · cases l with
    | nil => simp [List.take_nil]; rfl
    | cons c r =>
      cases n with
      | zero => rfl
      | succ n =>
        rw [List.take_succ_cons]
        exact h1
  · exact noAdjWs_append_left (l.drop n)
      (by rw [List.take_append_drop]; exact h3)
  · simp only [spaceOnlyWs]
    rw [List.all_eq_true]
    intro x hx
    exact List.all_eq_true.mp h4 x (List.take_subset n l hx)

theorem strip_semi_canon {t : List Char} (h : semiCanonWs t = true) :
    canonWs (pyStrip t) = true := by
  simp only [semiCanonWs, Bool.and_eq_true, and_assoc] at h
  obtain ⟨h1, h3, h4⟩ := h
  unfold pyStrip
  rw [dropWhile_noLead h1]
  have hsplit : t.reverse.takeWhile pyWs ++ t.reverse.dropWhile pyWs = t.reverse :=
    List.takeWhile_append_dropWhile pyWs t.reverse
  have ht : t = (t.reverse.dropWhile pyWs).reverse ++ (t.reverse.takeWhile pyWs).reverse := by
    conv_lhs => rw [← List.reverse_reverse t, ← hsplit]
    rw [List.reverse_append]
  simp only [canonWs, Bool.and_eq_true, and_assoc]
  refine ⟨?_, ?_, ?_, ?_⟩
  · cases hdr : (t.reverse.dropWhile pyWs).reverse with
    | nil => rfl
    | cons c cs =>
      rw [ht, hdr] at h1
      exact h1
  · unfold noTrailWs
    rw [List.reverse_reverse]
    cases hdc : t.reverse.dropWhile pyWs with
    | nil => rfl
    | cons x xs =>
      have hx : pyWs x = false := dropWhile_head_false t.reverse hdc
      show nonWs x = true
      simp [nonWs, hx]
  · rw [ht] at h3
    exact noAdjWs_append_left _ h3
  · rw [ht] at h4
    simp only [spaceOnlyWs] at h4 ⊢
    rw [List.all_eq_true] at h4 ⊢
    intro x hx
    exact h4 x (List.mem_append.mpr (Or.inl hx))

/-- The sanitizer output is always in canonical whitespace shape. -/
theorem sanitizeList_canon (pats : List Pat) (n : Nat) (x : List Char) :
    canonWs (sanitizeList pats n x) = true := by
  unfold sanitizeList
  exact strip_semi_canon (take_semiCanon n
    (joinSp_canon (pySplit_tokens (removePasses pats x).length _ (le_refl _))))

theorem sanitizeList_len_le (pats : List Pat) (n : Nat) (x : List Char) :
    (sanitizeList pats n x).length ≤ n := by
  unfold sanitizeList
  refine le_trans (pyStrip_len_le _) ?_
  rw [List.length_take]
  exact min_le_left _ _

theorem matchLit_len : ∀ (a t r : List Char), matchLit a t = some r →
    r.length + a.length = t.length := by
  intro a
  induction a with
  | nil =>
    intro t r h
    simp only [matchLit, Option.some.injEq] at h
    subst h
    simp
  | cons w ws ih =>
    intro t r h
    cases t with
    | nil => simp [matchLit] at h
    | cons c cs =>
      simp only [matchLit] at h
      by_cases hc : (c.toLower == w) = true
      · rw [if_pos hc] at h
        have := ih cs r h
        simp only [List.length_cons]
        omega
      · rw [if_neg hc] at h
        exact absurd h (by simp)

theorem matchAlts_lt : ∀ (e : List (List Char)) (t r : List Char),
    (∀ x ∈ e, x ≠ []) → matchAlts e t = some r → r.length < t.length := by
  intro e
  induction e with
  | nil => intro t r _ h; simp [matchAlts] at h
  | cons a rest ih =>
    intro t r hw h
    simp only [matchAlts] at h
    cases hm : matchLit a t with
    | some r2 =>
      rw [hm] at h
      have hr : r2 = r := by simpa using h
      subst hr
      have hlen := matchLit_len a t r2 hm
      have hane : a ≠ [] := hw a (List.mem_cons_self a rest)
      have : 0 < a.length := List.length_pos.mpr hane
      omega
    | none =>
      rw [hm] at h
      exact ih t r (fun x hx => hw x (List.mem_cons_of_mem a hx)) h

theorem eatWs_lt {t r : List Char} (h : eatWs t = some r) : r.length < t.length := by
  cases t with
  | nil => simp [eatWs] at h
  | cons c cs =>
    simp only [eatWs] at h
    by_cases hc : pyWs c = true
    · rw [if_pos hc] at h
      have hr : cs.dropWhile pyWs = r := by simpa using h
      subst hr
      simp only [List.length_cons]
      exact Nat.lt_succ_of_le (length_dropWhile_le _ _)
    · rw [if_neg hc] at h
      exact absurd h (by simp)

theorem matchSeq_lt : ∀ (pat : Pat) (t r : List Char), pat ≠ [] →
    (∀ e ∈ pat, ∀ x ∈ e, x ≠ []) → matchSeq pat t = some r →
    r.length < t.length := by
  intro pat
  induction pat with
  | nil => intro t r hne _ _; exact absurd rfl hne
  | cons e rest ih =>
    intro t r _ hw h
    cases rest with
    | nil =>
      exact matchAlts_lt e t r (hw e (List.mem_cons_self e [])) h
    | cons e2 rest2 =>
      simp only [matchSeq] at h
      cases hm : matchAlts e t with
      | none => rw [hm] at h; simp at h
      | some t1 =>
        rw [hm] at h
        dsimp only at h
        cases hw2 : eatWs t1 with
        | none => rw [hw2] at h; simp at h
        | some t2 =>
          rw [hw2] at h
          dsimp only at h
          have l1 := matchAlts_lt e t t1 (hw e (List.mem_cons_self e _)) hm
          have l2 := eatWs_lt hw2
          have l3 := ih t2 r (by simp)
            (fun e3 he3 x hx => hw e3 (List.mem_cons_of_mem e he3) x hx) h
          omega

theorem subAllF_len_le (pat : Pat) (hne : pat ≠ [])
    (hw : ∀ e ∈ pat, ∀ x ∈ e, x ≠ []) :
    ∀ f (l : List Char), (subAllF pat f l).length ≤ l.length := by
  intro f
  induction f with
  | zero => intro l; exact le_refl _
  | succ f ih =>
    intro l
    cases l with
    | nil => simp [subAllF]
    | cons c rest =>
      simp only [subAllF]
      cases hm : matchSeq pat (c :: rest) with
      | some t =>
        have := matchSeq_lt pat (c :: rest) t hne hw hm
        have h2 := ih t
        simp only [List.length_cons] at this ⊢
        omega
      | none =>
        simp only [List.length_cons]
        exact Nat.succ_le_succ (ih rest)

/-- If a full replacement pass leaves the string unchanged, the string
contains no match of the pattern. -/
theorem subAll_fix_no_match (pat : Pat) (hne : pat ≠ [])
    (hw : ∀ e ∈ pat, ∀ x ∈ e, x ≠ []) :
    ∀ n (l : List Char), l.length ≤ n → subAllF pat n l = l →
    hasMatch pat l = false := by
  intro n
  induction n with
  | zero =>
    intro l hl _
    have : l = [] := List.eq_nil_of_length_eq_zero (Nat.le_zero.mp hl)
    subst this
    rfl
  | succ n ih =>
    intro l hl hfix
    cases l with
    | nil => rfl
    | cons c rest =>
      simp only [subAllF] at hfix
      cases hm : matchSeq pat (c :: rest) with
      | some t =>
        exfalso
        rw [hm] at hfix
        have h1 := matchSeq_lt pat (c :: rest) t hne hw hm
        have h2 := subAllF_len_le pat hne hw n t
        have := congrArg List.length hfix
        simp only [List.length_cons] at this h1
        omega
      | none =>
        rw [hm] at hfix
        injection hfix with _ hfix2
        simp only [List.length_cons] at hl
        have := ih rest (by omega) hfix2
        simp only [hasMatch, hm, Option.isSome_none, Bool.false_or]
        exact this

theorem validatorsPatterns_words :
    ∀ p ∈ validatorsPatterns, p ≠ [] ∧ ∀ e ∈ p, ∀ x ∈ e, x ≠ [] := by decide

/-- If the replacement pass for `pat` fixes `l` and `l` fits in the fuel
budget, there is no match of `pat` in `l`. -/
theorem subAll_fix {pat : Pat} {l : List Char} (hne : pat ≠ [])
    (hw : ∀ e ∈ pat, ∀ x ∈ e, x ≠ []) (h : subAll pat l = l) :
    hasMatch pat l = false :=
  subAll_fix_no_match pat hne hw l.length l (le_refl _) h

/-- C2 counterexample: the sanitizer is not idempotent.  Deleting the inner
occurrence of `javascript:` in `jjavascript:avascript:` reassembles a new
`javascript:` that survives the single pass, and a second application of the
sanitizer removes it, so the two applications disagree. -/
theorem sanitize_input_not_idempotent :
    sanitize_input "jjavascript:avascript:" 1000 = "javascript:" ∧
    sanitize_input (sanitize_input "jjavascript:avascript:" 1000) 1000 = "" ∧
    sanitize_input (sanitize_input "jjavascript:avascript:" 1000) 1000
      ≠ sanitize_input "jjavascript:avascript:" 1000 :=
  ⟨by decide, by decide, by decide⟩

theorem asString_toList (l : List Char) : (l.asString).toList = l := rfl

theorem sanitize_input_toList (x : String) (n : Nat) :
    (sanitize_input x n).toList = sanitizeList validatorsPatterns n x.toList := by
  unfold sanitize_input
  exact asString_toList _

theorem sanitizeList_idem (pats : List Pat) (n : Nat) (x : List Char)
    (h : removePasses pats (sanitizeList pats n x) = sanitizeList pats n x) :
    sanitizeList pats n (sanitizeList pats n x) = sanitizeList pats n x := by
  have hcanon := sanitizeList_canon pats n x
  have hlen := sanitizeList_len_le pats n x
  conv_lhs => rw [show sanitizeList pats n (sanitizeList pats n x)
    = pyStrip ((joinSp (pySplit (removePasses pats (sanitizeList pats n x)))).take n)
    from rfl]
  rw [h, collapse_canon (sanitizeList pats n x).length _ (le_refl _) hcanon,
    List.take_of_length_le hlen, canon_strip_id hcanon]

/-- C2 (amended): the sanitizer is idempotent on every input whose sanitized
output is itself a fixed point of the three removal passes (HTML strip,
`javascript:` strip, injection-pattern strip); in general a second
application can differ because deleting a match can splice together a new
match. -/
theorem sanitize_input_idempotent_on_fixed (x : String)
    (h : removePasses validatorsPatterns (sanitize_input x 1000).toList
        = (sanitize_input x 1000).toList) :
    sanitize_input (sanitize_input x 1000) 1000 = sanitize_input x 1000 := by
  have h2 : removePasses validatorsPatterns (sanitizeList validatorsPatterns 1000 x.toList)
      = sanitizeList validatorsPatterns 1000 x.toList := by
    rw [← sanitize_input_toList]
    exact h
  have hcore := sanitizeList_idem validatorsPatterns 1000 x.toList h2
  show (sanitizeList validatorsPatterns 1000 (sanitize_input x 1000).toList).asString
      = sanitize_input x 1000
  rw [sanitize_input_toList, hcore]
  rfl

/-- Witness for the amended C2 at a concrete input whose sanitized output is
untouched by the removal passes. -/
theorem sanitize_input_idempotent_witness :
    sanitize_input (sanitize_input "How do I cook chicken?" 1000) 1000
      = sanitize_input "How do I cook chicken?" 1000 :=
  sanitize_input_idempotent_on_fixed "How do I cook chicken?" (by decide)

/-- C3 counterexample: an input that matches the `system prompt` injection
pattern whose sanitized output still contains the phrase: deleting the inner
match of `system system prompt prompt` leaves `system  prompt`, and the
whitespace collapse recreates the exact phrase. -/
theorem sanitize_injection_reassembled :
    pSystemPrompt ∈ validatorsPatterns ∧
    hasMatch pSystemPrompt ("system system prompt prompt".toList) = true ∧
    sanitize_input "system system prompt prompt" 1000 = "system prompt" ∧
    hasMatch pSystemPrompt
      ((sanitize_input "system system prompt prompt" 1000).toList) = true :=
  ⟨by decide, by decide, by decide, by decide⟩

/-- C3 (amended): for every input and every injection pattern of the fixed
list, if the sanitized output is unchanged by a further removal pass for that
pattern (no phrase was spliced together by deletion), then the output
contains no occurrence of the pattern. -/
theorem sanitize_no_injection_match_of_removal_fixed (x : String) (p : Pat)
    (hp : p ∈ validatorsPatterns)
    (hfix : subAll p (sanitize_input x 1000).toList
        = (sanitize_input x 1000).toList) :
    hasMatch p (sanitize_input x 1000).toList = false := by
  obtain ⟨hne, hw⟩ := validatorsPatterns_words p hp
  exact subAll_fix hne hw hfix

/-- Witness for the amended C3: an input containing an intact injection
phrase whose sanitized output is phrase-free. -/
theorem sanitize_no_injection_witness :
    hasMatch pIgnore
      (sanitize_input "please ignore previous instructions thanks" 1000).toList
      = false :=
  sanitize_no_injection_match_of_removal_fixed
    "please ignore previous instructions thanks" pIgnore (by decide) (by decide)

/-- C10: the standalone `sanitize_input` of the validators module at the
default limit of 1000 agrees with the AI-service internal `_sanitize_input`
on every input: the two bodies are the same pipeline with the same pattern
lists. -/
theorem sanitize_input_eq_ai_sanitize (text : String) :
    sanitize_input text 1000 = AIService._sanitize_input text := rfl


example : AIService._is_cooking_related "How do I cook chicken?" = true := by decide

example : AIService._is_cooking_related "What is the weather today?" = false := by decide


/-- C4 counterexample: when every attempt fails with a retryable signal the
client makes 3 attempts and sleeps 2s then 4s between them; no 8-second
sleep ever occurs, against the claimed 2s, 4s, 8s schedule. -/
theorem gemini_backoff_counterexample :
    AIService._generate_with_gemini (fun _ => .err "503 Service Unavailable")
      = ⟨.error AIService.busyMessage, [2, 4], 3⟩ ∧
    ¬ (8 ∈ (AIService._generate_with_gemini
        (fun _ => .err "503 Service Unavailable")).sleeps) :=
  ⟨by decide, by decide⟩

/-- C4 (amended): the client makes at most 3 total attempts against every
oracle; with retryable
failures on every attempt it sleeps 2s then 4s between consecutive attempts
(the 2 times 2 to the k schedule never reaches 8s because only 3 attempts
exist) and fails with the busy message; a non-retryable failure fails
immediately, with no sleep and no further attempt, carrying the underlying
message; two retryable failures followed by success return the success after
the two sleeps. -/
theorem geminiGo_calls (up : Nat → UpstreamResult) :
    ∀ rem att, (AIService.geminiGo up rem att).calls ≤ rem := by
  intro rem
  induction rem with
  | zero => intro att; exact le_refl _
  | succ rem ih =>
    intro att
    simp only [AIService.geminiGo]
    cases up att with
    | ok t => simp
    | err m =>
      by_cases hc : (AIService.isRetryable m && decide (att < AIService.max_retries - 1)) = true
      · simp only [hc, if_true]
        exact Nat.succ_le_succ (ih (att + 1))
      · simp only [eq_false_of_ne_true hc, Bool.false_eq_true, if_false]
        by_cases hr : AIService.isRetryable m = true
        · simp [hr]
        · simp [eq_false_of_ne_true hr]

theorem gemini_retry_behaviour (up : Nat → UpstreamResult) :
    ((AIService._generate_with_gemini up).calls ≤ 3) ∧
    (∀ m0 m1 m2, up 0 = .err m0 → up 1 = .err m1 → up 2 = .err m2 →
      AIService.isRetryable m0 = true → AIService.isRetryable m1 = true →
      AIService.isRetryable m2 = true →
      AIService._generate_with_gemini up
        = ⟨.error AIService.busyMessage, [2, 4], 3⟩) ∧
    (∀ m, up 0 = .err m → AIService.isRetryable m = false →
      AIService._generate_with_gemini up
        = ⟨.error ("AI generation failed: " ++ m), [], 1⟩) ∧
    (∀ m0 m1, up 0 = .err m0 → AIService.isRetryable m0 = true →
      up 1 = .err m1 → AIService.isRetryable m1 = false →
      AIService._generate_with_gemini up
        = ⟨.error ("AI generation failed: " ++ m1), [2], 2⟩) ∧
    (∀ m0 m1 t, up 0 = .err m0 → AIService.isRetryable m0 = true →
      up 1 = .err m1 → AIService.isRetryable m1 = true → up 2 = .ok t →
      AIService._generate_with_gemini up = ⟨.ok t, [2, 4], 3⟩) := by
  refine ⟨geminiGo_calls up AIService.max_retries 0, ?_, ?_, ?_, ?_⟩
  · intro m0 m1 m2 h0 h1 h2 r0 r1 r2
    simp [AIService._generate_with_gemini, AIService.geminiGo, AIService.max_retries,
      AIService.retry_delay, h0, h1, h2, r0, r1, r2]
  · intro m h0 r0
    simp [AIService._generate_with_gemini, AIService.geminiGo, AIService.max_retries,
      AIService.retry_delay, h0, r0]
  · intro m0 m1 h0 r0 h1 r1
    simp [AIService._generate_with_gemini, AIService.geminiGo, AIService.max_retries,
      AIService.retry_delay, h0, h1, r0, r1]
  · intro m0 m1 t h0 r0 h1 r1 h2
    simp [AIService._generate_with_gemini, AIService.geminiGo, AIService.max_retries,
      AIService.retry_delay, h0, h1, h2, r0, r1]

/-- Witness for the amended C4, instantiating every scenario at a concrete
oracle. -/
theorem gemini_retry_behaviour_witness :
    AIService._generate_with_gemini (fun _ => .err "RESOURCE_EXHAUSTED")
      = ⟨.error AIService.busyMessage, [2, 4], 3⟩ ∧
    AIService._generate_with_gemini (fun _ => .err "boom")
      = ⟨.error ("AI generation failed: " ++ "boom"), [], 1⟩ ∧
    AIService._generate_with_gemini (fun n => if n = 0 then .err "429" else .err "bad")
      = ⟨.error ("AI generation failed: " ++ "bad"), [2], 2⟩ ∧
    AIService._generate_with_gemini (fun n => if n ≤ 1 then .err "503" else .ok "done")
      = ⟨.ok "done", [2, 4], 3⟩ := by
  refine ⟨(gemini_retry_behaviour _).2.1 _ _ _ rfl rfl rfl (by decide) (by decide) (by decide),
    (gemini_retry_behaviour _).2.2.1 _ rfl (by decide),
    (gemini_retry_behaviour _).2.2.2.1 _ _ rfl (by decide) rfl (by decide),
    (gemini_retry_behaviour _).2.2.2.2 _ _ _ rfl (by decide) rfl (by decide) rfl⟩

/-- C8: the topic classifier is exactly the substring test over the fixed
keyword list on the lower-cased text; the two concrete examples classify as
stated; and a chat message whose sanitized text is off-topic short-circuits
to the fixed decline message with no generation-client call. -/
theorem topic_gate (text : String) (up : Nat → UpstreamResult)
    (msg : String) (context : List AIService.ContextMsg) :
    (AIService._is_cooking_related text = true ↔
      ∃ k ∈ AIService.cooking_keywords,
        containsSubstr (text.toList.map Char.toLower) k.toList = true) ∧
    AIService._is_cooking_related "How do I cook chicken?" = true ∧
    AIService._is_cooking_related "What is the weather today?" = false ∧
    (AIService._is_cooking_related (AIService._sanitize_input msg) = false →
      AIService.chat_response up msg context = ⟨.ok AIService.declineMessage, []⟩) := by
  refine ⟨?_, by decide, by decide, ?_⟩
  · simp [AIService._is_cooking_related, List.any_eq_true]
  · intro h
    simp [AIService.chat_response, h]

/-- Witness for C8: an off-topic chat message yields the decline message and
zero client calls. -/
theorem topic_gate_witness :
    AIService.chat_response (fun _ => .ok "some reply") "What is the weather today?" []
      = ⟨.ok AIService.declineMessage, []⟩ :=
  (topic_gate "x" (fun _ => .ok "some reply") "What is the weather today?" []).2.2.2
    (by decide)

/-- C1 (amended): for every chat message whose sanitized text passes the
topic gate, the chat pipeline makes exactly one generation-client call with
the chat prompt and returns the raw client result unchanged: there is no
JSON extraction, no schema validation and no outer retry loop in the chat
path. -/
theorem chat_single_call_raw (up : Nat → UpstreamResult) (msg : String)
    (context : List AIService.ContextMsg)
    (h : AIService._is_cooking_related (AIService._sanitize_input msg) = true) :
    AIService.chat_response up msg context
      = ⟨(AIService._generate_with_gemini up).result,
         [AIService._build_chat_prompt (AIService._sanitize_input msg) context]⟩ := by
  simp [AIService.chat_response, h]


example : AIService.extractValidateRecipe "Sure! Here is the recipe:\n\x7b\"title\": \"T\", \"description\": \"D\", \"prep_time\": \"5\", \"cook_time\": \"10\", \"ingredients\": [\x7b\"name\": \"a\", \"quantity\": \"1\"\x7d], \"steps\": [\"s1\"], \"nutrition\": \x7b\"calories\": \"1\", \"protein\": \"2\", \"carbs\": \"3\", \"fat\": \"4\"\x7d, \"tips\": [\"t\"], \"serving_suggestions\": [\"x\"]\x7d\nEnjoy!"
    = .ok ⟨"T", "D", "5", "10", [⟨"a", "1"⟩], ["s1"], ⟨"1", "2", "3", "4"⟩, ["t"], ["x"]⟩ := by
  decide

example : AIService.extractValidateRecipe "no json here"
    = .error "No JSON found in response" := by decide

example : AIService.extractValidateRecipe "text \x7b \"title\": 3 \x7d text"
    = .error "recipe validation failed" := by decide

example : AIService.extractValidateRecipe "text \x7b broken \x7d text"
    = .error "Invalid JSON in response" := by decide


theorem recipeGo_prompts (up : Nat → Nat → UpstreamResult) (p : String) :
    ∀ rem att, (AIService.recipeGo up p rem att).prompts.length ≤ rem ∧
      ∀ q ∈ (AIService.recipeGo up p rem att).prompts, q = p := by
  intro rem
  induction rem with
  | zero =>
    intro att
    exact ⟨by simp [AIService.recipeGo], by simp [AIService.recipeGo]⟩
  | succ rem ih =>
    intro att
    simp only [AIService.recipeGo]
    cases hg : (AIService._generate_with_gemini (up att)).result with
    | error e => exact ⟨by simp, by simp⟩
    | ok raw =>
      cases hv : AIService.extractValidateRecipe raw with
      | ok doc => exact ⟨by simp [hv], by simp [hv]⟩
      | error e =>
        simp only [hv]
        by_cases hatt : att = AIService.max_retries - 1
        · simp only [if_pos hatt]
          exact ⟨by simp, by simp⟩
        · simp only [if_neg hatt]
          refine ⟨?_, ?_⟩
          · simpa using Nat.succ_le_succ (ih (att + 1)).1
          · intro q hq
            rcases List.mem_cons.mp hq with h | h
            · exact h
            · exact (ih (att + 1)).2 q h

theorem ingredientGo_prompts (up : Nat → Nat → UpstreamResult) (p : String) :
    ∀ rem att, (AIService.ingredientGo up p rem att).prompts.length ≤ rem ∧
      ∀ q ∈ (AIService.ingredientGo up p rem att).prompts, q = p := by
  intro rem
  induction rem with
  | zero =>
    intro att
    exact ⟨by simp [AIService.ingredientGo], by simp [AIService.ingredientGo]⟩
  | succ rem ih =>
    intro att
    simp only [AIService.ingredientGo]
    cases hg : (AIService._generate_with_gemini (up att)).result with
    | error e => exact ⟨by simp, by simp⟩
    | ok raw =>
      cases hv : AIService.extractValidateIngredient raw with
      | ok doc => exact ⟨by simp [hv], by simp [hv]⟩
      | error e =>
        simp only [hv]
        by_cases hatt : att = AIService.max_retries - 1
        · simp only [if_pos hatt]
          exact ⟨by simp, by simp⟩
        · simp only [if_neg hatt]
          refine ⟨?_, ?_⟩
          · simpa using Nat.succ_le_succ (ih (att + 1)).1
          · intro q hq
            rcases List.mem_cons.mp hq with h | h
            · exact h
            · exact (ih (att + 1)).2 q h

/-- C5: for both generation operations, the orchestrator makes at most 3
outer attempts; every generation-client invocation uses the identical prompt
built once from the sanitized input; when all 3 attempts return text that
fails extraction or validation, the operation fails with the fixed generic
message (which mentions neither the raw text nor the validation detail) after
exactly 3 same-prompt calls; and a client error propagates immediately after
a single outer attempt. -/
theorem orchestrator_fresh_retry (up : Nat → Nat → UpstreamResult)
    (dish : String) (ings : List String) :
    ((AIService.generate_recipe up dish).prompts.length ≤ 3) ∧
    (∀ q ∈ (AIService.generate_recipe up dish).prompts,
      q = AIService._build_recipe_prompt (AIService._sanitize_input dish)) ∧
    ((∀ k, k < 3 → ∃ raw, (AIService._generate_with_gemini (up k)).result = .ok raw ∧
        ∃ e, AIService.extractValidateRecipe raw = .error e) →
      (AIService.generate_recipe up dish).result
          = .error "Failed to generate valid recipe after retries" ∧
      (AIService.generate_recipe up dish).prompts
          = [AIService._build_recipe_prompt (AIService._sanitize_input dish),
             AIService._build_recipe_prompt (AIService._sanitize_input dish),
             AIService._build_recipe_prompt (AIService._sanitize_input dish)]) ∧
    (∀ e, (AIService._generate_with_gemini (up 0)).result = .error e →
      AIService.generate_recipe up dish
        = ⟨.error e, [AIService._build_recipe_prompt (AIService._sanitize_input dish)]⟩) ∧
    ((AIService.generate_from_ingredients up ings).prompts.length ≤ 3) ∧
    (∀ q ∈ (AIService.generate_from_ingredients up ings).prompts,
      q = AIService._build_ingredient_prompt (ings.map AIService._sanitize_input)) ∧
    ((∀ k, k < 3 → ∃ raw, (AIService._generate_with_gemini (up k)).result = .ok raw ∧
        ∃ e, AIService.extractValidateIngredient raw = .error e) →
      (AIService.generate_from_ingredients up ings).result
          = .error "Failed to generate suggestions" ∧
      (AIService.generate_from_ingredients up ings).prompts.length = 3) ∧
    (∀ e, (AIService._generate_with_gemini (up 0)).result = .error e →
      AIService.generate_from_ingredients up ings
        = ⟨.error e,
           [AIService._build_ingredient_prompt (ings.map AIService._sanitize_input)]⟩) := by
  refine ⟨?_, ?_, ?_, ?_, ?_, ?_, ?_, ?_⟩
  · exact (recipeGo_prompts up _ AIService.max_retries 0).1
  · exact (recipeGo_prompts up _ AIService.max_retries 0).2
  · intro hmal
    obtain ⟨r0, hg0, e0, hv0⟩ := hmal 0 (by omega)
    obtain ⟨r1, hg1, e1, hv1⟩ := hmal 1 (by omega)
    obtain ⟨r2, hg2, e2, hv2⟩ := hmal 2 (by omega)
    constructor <;>
      simp [AIService.generate_recipe, AIService.recipeGo, AIService.max_retries,
        hg0, hg1, hg2, hv0, hv1, hv2]
  · intro e hg
    simp [AIService.generate_recipe, AIService.recipeGo, AIService.max_retries, hg]
  · exact (ingredientGo_prompts up _ AIService.max_retries 0).1
  · exact (ingredientGo_prompts up _ AIService.max_retries 0).2
  · intro hmal
    obtain ⟨r0, hg0, e0, hv0⟩ := hmal 0 (by omega)
    obtain ⟨r1, hg1, e1, hv1⟩ := hmal 1 (by omega)
    obtain ⟨r2, hg2, e2, hv2⟩ := hmal 2 (by omega)
    constructor <;>
      simp [AIService.generate_from_ingredients, AIService.ingredientGo,
        AIService.max_retries, hg0, hg1, hg2, hv0, hv1, hv2]
  · intro e hg
    simp [AIService.generate_from_ingredients, AIService.ingredientGo,
      AIService.max_retries, hg]

/-- Witness for C5: a model that always answers brace-free text exhausts the
3 outer attempts and yields the generic failure; a model whose client call
raises propagates the error after one outer attempt. -/
theorem orchestrator_fresh_retry_witness :
    (AIService.generate_recipe (fun _ _ => .ok "plain text") "pasta").result
        = .error "Failed to generate valid recipe after retries" ∧
    AIService.generate_recipe (fun _ _ => .err "boom") "pasta"
        = ⟨.error ("AI generation failed: " ++ "boom"),
           [AIService._build_recipe_prompt (AIService._sanitize_input "pasta")]⟩ ∧
    (AIService.generate_from_ingredients (fun _ _ => .ok "plain text") ["egg"]).result
        = .error "Failed to generate suggestions" := by
  refine ⟨((orchestrator_fresh_retry (fun _ _ => .ok "plain text") "pasta" []).2.2.1
      (fun k _ => ⟨"plain text", rfl, "No JSON found in response", rfl⟩)).1,
    (orchestrator_fresh_retry (fun _ _ => .err "boom") "pasta" []).2.2.2.1
      ("AI generation failed: " ++ "boom") (by decide),
    ((orchestrator_fresh_retry (fun _ _ => .ok "plain text") "x" ["egg"]).2.2.2.2.2.2.1
      (fun k _ => ⟨"plain text", rfl, "No JSON found in response", rfl⟩)).1⟩

/-- C1 counterexample: an on-topic chat message answered by the model with
brace-free prose: the chat pipeline returns the raw model text after exactly
one client call, although JSON extraction on that text would fail; the chat
path has no extract-validate step and no outer retry, so a malformed reply is
returned rather than retried or replaced by a generic failure. -/
theorem chat_counterexample :
    AIService.chat_response (fun _ => .ok "Stir it slowly and season to taste.")
        "How do I cook chicken?" []
      = ⟨.ok "Stir it slowly and season to taste.",
         [AIService._build_chat_prompt "How do I cook chicken?" []]⟩ ∧
    AIService._extract_json "Stir it slowly and season to taste."
      = .error "No JSON found in response" := by
  constructor
  · decide
  · rfl

/-- Witness for the amended C1 at a concrete on-topic message. -/
theorem chat_single_call_raw_witness :
    AIService.chat_response (fun _ => .ok "Use a pan.") "How do I cook chicken?" []
      = ⟨.ok "Use a pan.",
         [AIService._build_chat_prompt
            (AIService._sanitize_input "How do I cook chicken?") []]⟩ := by
  rw [chat_single_call_raw (fun _ => .ok "Use a pan.") "How do I cook chicken?" []
    (by decide)]
  decide


theorem removeFirst_decomp {α : Type} (p : RecipeRow α → Bool) :
    ∀ (l : List (RecipeRow α)), l.any p = true →
      ∃ pre r post, l = pre ++ r :: post ∧ p r = true ∧
        (∀ q ∈ pre, p q = false) ∧
        RecipeRepository.removeFirstP p l = pre ++ post := by
  intro l
  induction l with
  | nil => simp
  | cons x xs ih =>
    intro h
    by_cases hx : p x = true
    · exact ⟨[], x, xs, rfl, hx, by simp, by simp [RecipeRepository.removeFirstP, hx]⟩
    · have hx' : p x = false := by simpa using hx
      have hxs : xs.any p = true := by
        simp only [List.any_cons, hx', Bool.false_or] at h
        exact h
      obtain ⟨pre, r, post, hsplit, hr, hpre, hrm⟩ := ih hxs
      refine ⟨x :: pre, r, post, by simp [hsplit], hr, ?_, ?_⟩
      · intro q hq
        rcases List.mem_cons.mp hq with hq | hq
        · rw [hq]; exact hx'
        · exact hpre q hq
      · simp [RecipeRepository.removeFirstP, hx', hrm]

/-- C7: recipe deletion is ownership-scoped.  The repository delete reports
success exactly when the store has a row with the given id owned by the
given user; on failure the store is unchanged and the endpoint answers 404
with the fixed detail, identically whether the id is absent or owned by
someone else; on success exactly the first matching row is removed. -/
theorem delete_ownership_scoped {α : Type} (st : RecipeStore α) (rid uid : Nat) :
    ((RecipeRepository.delete st rid uid).1 = true ↔
      ∃ r ∈ st.rows, r.id = rid ∧ r.user_id = uid) ∧
    ((RecipeRepository.delete st rid uid).1 = false →
      RecipeRepository.delete st rid uid = (false, st) ∧
      delete_recipe st rid uid = (st, .httpError 404 "Recipe not found")) ∧
    ((RecipeRepository.delete st rid uid).1 = true →
      ∃ pre r post, st.rows = pre ++ r :: post ∧ r.id = rid ∧ r.user_id = uid ∧
        (∀ q ∈ pre, ¬(q.id = rid ∧ q.user_id = uid)) ∧
        (RecipeRepository.delete st rid uid).2.rows = pre ++ post ∧
        (RecipeRepository.delete st rid uid).2.nextId = st.nextId) := by
  by_cases h : st.rows.any (fun r => r.id == rid && r.user_id == uid) = true
  · refine ⟨?_, ?_, ?_⟩
    · simp only [RecipeRepository.delete, h, if_true, true_iff]
      rw [List.any_eq_true] at h
      obtain ⟨r, hr, hp⟩ := h
      simp only [Bool.and_eq_true, beq_iff_eq] at hp
      exact ⟨r, hr, hp⟩
    · intro hfalse
      rw [RecipeRepository.delete, if_pos h] at hfalse
      simp at hfalse
    · intro _
      obtain ⟨pre, r, post, hsplit, hp, hpre, hrm⟩ :=
        removeFirst_decomp (fun r => r.id == rid && r.user_id == uid) st.rows h
      simp only [Bool.and_eq_true, beq_iff_eq] at hp
      refine ⟨pre, r, post, hsplit, hp.1, hp.2, ?_, ?_, ?_⟩
      · intro q hq hcontra
        have := hpre q hq
        simp only [Bool.and_eq_true, beq_iff_eq] at this
        rw [hcontra.1, hcontra.2] at this
        simp at this
      · simp [RecipeRepository.delete, h, hrm]
      · simp [RecipeRepository.delete, h]
  · have h' : st.rows.any (fun r => r.id == rid && r.user_id == uid) = false := by
      simpa using h
    refine ⟨?_, ?_, ?_⟩
    · simp only [RecipeRepository.delete, h', Bool.false_eq_true, if_false]
      constructor
      · intro hcontra; simp at hcontra
      · intro ⟨r, hr, hid, huid⟩
        rw [List.any_eq_true] at h
        exact absurd ⟨r, hr, by simp [hid, huid]⟩ h
    · intro _
      constructor
      · simp [RecipeRepository.delete, h']
      · simp [delete_recipe, RecipeRepository.delete, h']
    · intro hcontra
      rw [RecipeRepository.delete, if_neg (by simp [h'])] at hcontra
      simp at hcontra

/-- Witness for C7 covering both outcomes: deleting a row of another user
leaves the store unchanged with a 404, and deleting an owned row removes it. -/
theorem delete_ownership_witness :
    (delete_recipe (⟨[⟨1, 7, "doc", 0⟩], 2, 1⟩ : RecipeStore String) 1 8
      = (⟨[⟨1, 7, "doc", 0⟩], 2, 1⟩, .httpError 404 "Recipe not found")) ∧
    ((RecipeRepository.delete (⟨[⟨1, 7, "doc", 0⟩], 2, 1⟩ : RecipeStore String) 1 7).2.rows
      = []) := by
  constructor
  · exact (((delete_ownership_scoped (⟨[⟨1, 7, "doc", 0⟩], 2, 1⟩ : RecipeStore String)
      1 8).2.1) (by decide)).2
  · decide

theorem mem_insertDesc {α : Type} (r a : RecipeRow α) :
    ∀ (l : List (RecipeRow α)), a ∈ RecipeRepository.insertDesc r l ↔ a = r ∨ a ∈ l := by
  intro l
  induction l with
  | nil => simp [RecipeRepository.insertDesc]
  | cons x xs ih =>
    simp only [RecipeRepository.insertDesc]
    by_cases hc : x.created_at ≤ r.created_at
    · simp [hc, List.mem_cons]
    · simp only [hc, if_false, List.mem_cons, ih]
      tauto

theorem mem_sortDesc {α : Type} (a : RecipeRow α) :
    ∀ (l : List (RecipeRow α)), a ∈ RecipeRepository.sortDesc l ↔ a ∈ l := by
  intro l
  induction l with
  | nil => simp [RecipeRepository.sortDesc]
  | cons x xs ih =>
    simp only [RecipeRepository.sortDesc, mem_insertDesc, ih, List.mem_cons]

/-- C9: saving a schema-conformant recipe document for a user and then
fetching the saved-recipes listing yields an entry whose payload equals the
document and whose id is the assigned store id (also returned by the save
response). -/
theorem save_list_roundtrip (st : RecipeStore RecipeResponse) (uid : Nat)
    (d : RecipeResponse) :
    (save_recipe st uid d).2.1 = st.nextId ∧
    (st.nextId, d) ∈ get_saved_recipes (save_recipe st uid d).1 uid := by
  constructor
  · rfl
  · show (st.nextId, d) ∈
      (RecipeRepository.get_by_user_id
        ⟨st.rows ++ [⟨st.nextId, uid, d, st.clock⟩], st.nextId + 1, st.clock + 1⟩ uid).map
        (fun r => (r.id, r.recipe_json))
    rw [List.mem_map]
    refine ⟨⟨st.nextId, uid, d, st.clock⟩, ?_, rfl⟩
    rw [RecipeRepository.get_by_user_id, mem_sortDesc, List.mem_filter]
    constructor
    · simp
    · simp

/-- C6: the login decision order.  An unknown email fails with the
invalid-credential error; a known user without a password credential fails
with the wrong-auth-method error regardless of the password supplied; a
failed verification against a present hash fails with the invalid-credential
error; and a successful verification issues the claims subject = email,
email, user id, and expiry now plus the configured lifetime. -/
theorem login_decision_order (verify : String → String → Bool)
    (db : List UserRow) (email password : String) (now ttl : Nat) :
    (UserRepository.get_by_email db email = none →
      AuthService.login verify db email password now ttl
        = .error AuthService.invalidCredentialMessage) ∧
    (∀ u, UserRepository.get_by_email db email = some u → u.password_hash = none →
      AuthService.login verify db email password now ttl
        = .error AuthService.wrongAuthMethodMessage) ∧
    (∀ u h, UserRepository.get_by_email db email = some u →
      u.password_hash = some h → h ≠ "" → verify password h = false →
      AuthService.login verify db email password now ttl
        = .error AuthService.invalidCredentialMessage) ∧
    (∀ u h, UserRepository.get_by_email db email = some u →
      u.password_hash = some h → h ≠ "" → verify password h = true →
      AuthService.login verify db email password now ttl
        = .ok ⟨u.email, u.email, u.id, now + ttl⟩) := by
  refine ⟨?_, ?_, ?_, ?_⟩
  · intro h
    simp [AuthService.login, h]
  · intro u hu hp
    simp [AuthService.login, hu, hp]
  · intro u h hu hp hne hv
    simp [AuthService.login, hu, hp, hne, hv]
  · intro u h hu hp hne hv
    simp [AuthService.login, AuthService._create_access_token, hu, hp, hne, hv]

/-- Witness for C6: a two-user store exercising all four outcomes with a
concrete verification oracle. -/
theorem login_decision_order_witness :
    (AuthService.login (fun p h => h == "hash:" ++ p)
        [⟨1, "a@example.com", "Alice", none, some "hash:pw", some "chef", 0⟩,
         ⟨2, "b@example.com", "Bob", some "gid", none, some "chef", 0⟩]
        "a@example.com" "pw" 5 30
      = .ok ⟨"a@example.com", "a@example.com", 1, 35⟩) ∧
    (AuthService.login (fun p h => h == "hash:" ++ p)
        [⟨1, "a@example.com", "Alice", none, some "hash:pw", some "chef", 0⟩,
         ⟨2, "b@example.com", "Bob", some "gid", none, some "chef", 0⟩]
        "a@example.com" "wrong" 5 30
      = .error AuthService.invalidCredentialMessage) ∧
    (AuthService.login (fun p h => h == "hash:" ++ p)
        [⟨1, "a@example.com", "Alice", none, some "hash:pw", some "chef", 0⟩,
         ⟨2, "b@example.com", "Bob", some "gid", none, some "chef", 0⟩]
        "b@example.com" "pw" 5 30
      = .error AuthService.wrongAuthMethodMessage) ∧
    (AuthService.login (fun p h => h == "hash:" ++ p)
        [⟨1, "a@example.com", "Alice", none, some "hash:pw", some "chef", 0⟩,
         ⟨2, "b@example.com", "Bob", some "gid", none, some "chef", 0⟩]
        "c@example.com" "pw" 5 30
      = .error AuthService.invalidCredentialMessage) := by
  have halice := login_decision_order (fun p h => h == "hash:" ++ p)
    [⟨1, "a@example.com", "Alice", none, some "hash:pw", some "chef", 0⟩,
     ⟨2, "b@example.com", "Bob", some "gid", none, some "chef", 0⟩]
    "a@example.com" "pw" 5 30
  have hwrong := login_decision_order (fun p h => h == "hash:" ++ p)
    [⟨1, "a@example.com", "Alice", none, some "hash:pw", some "chef", 0⟩,
     ⟨2, "b@example.com", "Bob", some "gid", none, some "chef", 0⟩]
    "a@example.com" "wrong" 5 30
  have hbob := login_decision_order (fun p h => h == "hash:" ++ p)
    [⟨1, "a@example.com", "Alice", none, some "hash:pw", some "chef", 0⟩,
     ⟨2, "b@example.com", "Bob", some "gid", none, some "chef", 0⟩]
    "b@example.com" "pw" 5 30
  have hnone := login_decision_order (fun p h => h == "hash:" ++ p)
    [⟨1, "a@example.com", "Alice", none, some "hash:pw", some "chef", 0⟩,
     ⟨2, "b@example.com", "Bob", some "gid", none, some "chef", 0⟩]
    "c@example.com" "pw" 5 30
  refine ⟨?_, ?_, ?_, ?_⟩
  · exact halice.2.2.2
      ⟨1, "a@example.com", "Alice", none, some "hash:pw", some "chef", 0⟩
      "hash:pw" (by decide) rfl (by decide) (by decide)
  · exact hwrong.2.2.1
      ⟨1, "a@example.com", "Alice", none, some "hash:pw", some "chef", 0⟩
      "hash:pw" (by decide) rfl (by decide) (by decide)
  · exact hbob.2.1
      ⟨2, "b@example.com", "Bob", some "gid", none, some "chef", 0⟩
      (by decide) rfl
  · exact hnone.1 (by decide)

example : sanitize_input "hello   <b>world</b>" 1000 = "hello world" := by decide

example : sanitize_input "jjavascript:avascript:" 1000 = "javascript:" := by decide

example : sanitize_input "javascript:" 1000 = "" := by decide

example : sanitize_input "system system prompt prompt" 1000 = "system prompt" := by decide

example : sanitize_input "please IGNORE  previous   instructions now" 1000 = "please now" := by decide

end Spec2Proof
